import Mathlib

/-!
# Rolling theme cache of `theme.cpp`

A shallow embedding of `Theme` and `ThemeBank` (file `theme.cpp`) together with
the properties of the switch protocol, the cooldown, the ping-pong animation
index, the single-step loader, the consistency of cache and flags over the
reachable theme states, the constructor and the cache budget.

Conventions of the embedding

* `std::size_t` values are natural numbers.  The only arithmetic on them is
  `2 * len - 2`, `2 * len - 2 - f` (guarded by `f ≥ len`), `++_updates`
  (reset above 128), `--_cooldown` (guarded by `_cooldown ≠ 0`) and
  `image_cache_size / k`; none of them can wrap for a vector that fits in
  memory, so no reduction modulo `2 ^ 64` is applied.
* Undefined behaviour (remainder by zero, an index outside a vector, a call of
  `next_index` without a candidate) is the result `none`.
* The collaborators (`random`, `random_excluding`, `random_chance`,
  `load_image`, `load_animation`, the random choice inside `next_index`) are
  not computed: the values they return are arguments of the model.
* Mutexes and `ensure_texture_uploaded` have no effect on the modelled state
  and are left out.
-/

namespace Trance

/-! ## Data model -/

/-- Opaque image handle: `empty` is the default-constructed `Image`, which
converts to `false`; `data k` is a decoded image, which converts to `true`. -/
inductive Image where
  | empty : Image
  | data (id : Nat) : Image
  deriving DecidableEq, Repr

/-- The conversion `if (image)` of `load_image_internal`. -/
def Image.valid : Image → Bool
  | Image.empty => false
  | Image.data _ => true

/-- Modelled from the spec: `PathCollection` (declared in `util.h`, which is not
part of the sources at hand).  The spec describes it as an ordered sequence of
path entries, each with an enabled flag that is enabled by default; the path
strings only feed the decoders, whose results are arguments of the model, so an
entry is represented by its flag. -/
structure PathCollection where
  enabled : List Bool
  deriving DecidableEq, Repr

namespace PathCollection

/-- Modelled from the spec: a collection built from a list of paths has one
entry per path, each enabled. -/
def ofPaths (paths : List String) : PathCollection :=
  ⟨paths.map (fun _ => true)⟩

/-- Modelled from the spec: `size()`. -/
def size (c : PathCollection) : Nat := c.enabled.length

/-- Modelled from the spec: `empty()`. -/
def empty (c : PathCollection) : Bool := c.enabled.isEmpty

/-- Modelled from the spec: `enabled_count()`. -/
def enabled_count (c : PathCollection) : Nat := c.enabled.count true

/-- Indices whose enabled state equals `flag`, in increasing order. -/
def candidates (c : PathCollection) (flag : Bool) : List Nat :=
  (List.range c.enabled.length).filter (fun i => c.enabled[i]? == some flag)

/-- Modelled from the spec: `next_index(flag)` returns an index whose enabled
state equals `flag`; which one is decided by the collection's internal random
choice `pick`.  Without any such index the call is undefined (`none`). -/
def next_index (c : PathCollection) (flag : Bool) (pick : Nat) : Option Nat :=
  (c.candidates flag)[pick % (c.candidates flag).length]?

/-- Modelled from the spec: `set_enabled(index, value)` changes the flag of
exactly one entry. -/
def set_enabled (c : PathCollection) (index : Nat) (value : Bool) : PathCollection :=
  ⟨c.enabled.set index value⟩

end PathCollection

/-- Internal operations of a `Theme`, recorded in the ghost field `trace`. -/
inductive Work where
  | load_animation : Work
  | unload_animation : Work
  | load_image : Work
  | unload_image : Work
  deriving DecidableEq, Repr

/-- Operation on the animation sequence. -/
def Work.isAnimation : Work → Bool
  | Work.load_animation => true
  | Work.unload_animation => true
  | _ => false

/-- Operation on the stills cache. -/
def Work.isStill : Work → Bool
  | Work.load_image => true
  | Work.unload_image => true
  | _ => false

/-- State of a `Theme`.  `_images` is the `std::map` from path index to image,
kept as an association list; `_animation_images` is the frame vector.  The
font and text collections take no part in loading and are left out.  `trace`
is a ghost log: every `*_internal` operation appends its name when it runs. -/
structure Theme where
  _image_paths : PathCollection
  _animation_paths : PathCollection
  _target_load : Nat
  _images : List (Nat × Image)
  _animation_images : List Image
  trace : List Work
  deriving DecidableEq, Repr

/-- Values returned by the collaborators during one `perform_load` or
`perform_swap`: `chance` is `random_chance(4)`, `frames` is the result of
`load_animation`, `unload_pick` and `load_pick` drive `next_index(false)` and
`next_index(true)`, `image` is the result of `load_image`. -/
structure Outcome where
  chance : Bool
  frames : List Image
  unload_pick : Nat
  load_pick : Nat
  image : Image
  deriving DecidableEq, Repr

/-- Every decode of the outcome succeeds. -/
def Outcome.decodes (o : Outcome) : Bool :=
  o.image.valid && !o.frames.isEmpty

namespace Theme

/-- The keys of the stills cache. -/
def keys (t : Theme) : List Nat := t._images.map Prod.fst

/-- `Theme::Theme(const trance_pb::Theme&)`, lines 9-16. -/
def ofProto (image_path animation_path : List String) : Theme :=
  { _image_paths := PathCollection.ofPaths image_path
    _animation_paths := PathCollection.ofPaths animation_path
    _target_load := 0
    _images := []
    _animation_images := []
    trace := [] }

/-- The copy constructor `Theme::Theme(const Theme&)`, lines 19-26: paths and
target load are copied, both caches start empty. -/
def copy (t : Theme) : Theme :=
  { _image_paths := t._image_paths
    _animation_paths := t._animation_paths
    _target_load := t._target_load
    _images := []
    _animation_images := []
    trace := [] }

/-- Lines 52-54 of `get_animation`: the ping-pong index for a frame vector of
length `len`.  `frame % (2 * len - 2)` is undefined when the divisor is `0`. -/
def animation_index (len frame : Nat) : Option Nat :=
  if 2 * len - 2 = 0 then none
  else
    let f := frame % (2 * len - 2)
    some (if f < len then f else 2 * len - 2 - f)

/-- `Theme::get_animation`, lines 45-59. -/
def get_animation (t : Theme) (frame : Nat) : Option Image :=
  if t._animation_images.isEmpty then some Image.empty
  else
    match animation_index t._animation_images.length frame with
    | none => none
    | some f => t._animation_images[f]?

/-- `Theme::get_image`, lines 28-43.  `frame` is the value of `random(2 << 16)`
and `pick` the choice made by `next_index(false)`. -/
def get_image (t : Theme) (frame pick : Nat) : Option Image :=
  if t._images.isEmpty then get_animation t frame
  else
    match t._image_paths.next_index false pick with
    | none => none
    | some index =>
      match t._images.find? (fun e => e.1 == index) with
      | none => none
      | some e => some e.2

/-- `Theme::set_target_load`, lines 71-74. -/
def set_target_load (t : Theme) (target_load : Nat) : Theme :=
  { t with _target_load := target_load }

/-- `Theme::loaded`, lines 122-125. -/
def loaded (t : Theme) : Nat := t._images.length

/-- `Theme::all_loaded`, lines 116-120. -/
def all_loaded (t : Theme) : Bool :=
  (t._images.length == t._target_load || t._image_paths.enabled_count == 0) &&
    (t._animation_images.isEmpty == (t._target_load == 0) || t._animation_paths.empty)

/-- `std::map::emplace`: the entry is added unless the key is present. -/
def emplace (m : List (Nat × Image)) (index : Nat) (image : Image) : List (Nat × Image) :=
  if m.any (fun e => e.1 == index) then m else m ++ [(index, image)]

/-- `std::map::erase(key)`. -/
def erase (m : List (Nat × Image)) (index : Nat) : List (Nat × Image) :=
  m.filter (fun e => e.1 != index)

/-- `Theme::load_image_internal`, lines 127-142. -/
def load_image_internal (t : Theme) (pick : Nat) (image : Image) : Option Theme :=
  match t._image_paths.next_index true pick with
  | none => none
  | some index =>
    let t := { t with trace := t.trace ++ [Work.load_image] }
    if image.valid then
      some { t with
        _image_paths := t._image_paths.set_enabled index false
        _images := emplace t._images index image }
    else some t

/-- `Theme::unload_image_internal`, lines 144-153. -/
def unload_image_internal (t : Theme) (pick : Nat) : Option Theme :=
  match t._image_paths.next_index false pick with
  | none => none
  | some index =>
    some { t with
      _images := erase t._images index
      _image_paths := t._image_paths.set_enabled index true
      trace := t.trace ++ [Work.unload_image] }

/-- `Theme::load_animation_internal`, lines 155-166. -/
def load_animation_internal (t : Theme) (frames : List Image) : Theme :=
  let t := { t with trace := t.trace ++ [Work.load_animation] }
  if frames.isEmpty then t else { t with _animation_images := frames }

/-- `Theme::unload_animation_internal`, lines 168-173. -/
def unload_animation_internal (t : Theme) : Theme :=
  { t with _animation_images := [], trace := t.trace ++ [Work.unload_animation] }

/-- `Theme::perform_swap`, lines 76-88. -/
def perform_swap (t : Theme) (o : Outcome) : Option Theme :=
  if t._animation_paths.size > 2 && o.chance then
    some (load_animation_internal t o.frames)
  else if t._images.length > 2 && t._image_paths.enabled_count != 0 then
    match unload_image_internal t o.unload_pick with
    | none => none
    | some t1 => load_image_internal t1 o.load_pick o.image
  else some t

/-- Lines 92-99 of `perform_load`: the animation part. -/
def perform_load_animation (t : Theme) (o : Outcome) : Theme :=
  if !t._animation_paths.empty then
    if t._target_load != 0 && t._animation_images.isEmpty then
      load_animation_internal t o.frames
    else if t._target_load == 0 && !t._animation_images.isEmpty then
      unload_animation_internal t
    else t
  else t

/-- `Theme::perform_load`, lines 90-107. -/
def perform_load (t : Theme) (o : Outcome) : Option Theme :=
  let t := perform_load_animation t o
  if t._images.length < t._target_load && t._image_paths.enabled_count != 0 then
    load_image_internal t o.load_pick o.image
  else if t._images.length > t._target_load then
    unload_image_internal t o.unload_pick
  else some t

/-- `perform_load` called once per outcome of the list, in order. -/
def perform_loads (t : Theme) : List Outcome → Option Theme
  | [] => some t
  | o :: os => (perform_load t o).bind (fun t1 => perform_loads t1 os)

/-- `Theme::perform_all_loads`, lines 109-114.  The list holds the outcomes of
the successive `perform_load` calls; `none` also stands for a loop that has not
finished when the list is used up. -/
def perform_all_loads (t : Theme) : List Outcome → Option Theme
  | [] => if t.all_loaded then some t else none
  | o :: os =>
    if t.all_loaded then some t
    else (perform_load t o).bind (fun t1 => perform_all_loads t1 os)

/-- The stills-cache keys are exactly the disabled image indices: the key list
is a rearrangement of the list of indices whose flag is `false`. -/
def consistent (t : Theme) : Prop :=
  t.keys.Perm (t._image_paths.candidates false)

instance (t : Theme) : Decidable t.consistent :=
  inferInstanceAs (Decidable (List.Perm _ _))

/-- The animation half of `all_loaded()`. -/
def animation_settled (t : Theme) : Bool :=
  t._animation_images.isEmpty == (t._target_load == 0) || t._animation_paths.empty

end Theme

/-! ## The bank -/

/-- State of a `ThemeBank`. -/
structure ThemeBank where
  _themes : List Theme
  _image_cache_size : Nat
  _updates : Nat
  _cooldown : Nat
  _a : Nat
  _b : Nat
  _next : Nat
  _prev : Nat
  deriving DecidableEq, Repr

/-- One `trance_pb::Theme` message, as far as `Theme::Theme` reads it. -/
structure ThemeProto where
  image_path : List String
  animation_path : List String
  deriving DecidableEq, Repr

/-- Values returned by the collaborators during the constructor: `a` is
`random(size)`, `b` is `random_excluding(size, _a)`, `next` lists the successive
results of `random_excluding(size, _a)` in the rejection loop, `loads0`,
`loads1` and `loads2` are the outcomes used by the first, second and third
`perform_all_loads`, and `init_next`, `init_prev` are the indeterminate values
of the members the constructor does not assign. -/
structure Boot where
  a : Nat
  b : Nat
  next : List Nat
  loads0 : List Outcome
  loads1 : List Outcome
  loads2 : List Outcome
  init_next : Nat
  init_prev : Nat
  deriving DecidableEq, Repr

/-- Values returned by the collaborators during one `async_update`, one
`Outcome` per theme operation: `a` and `b` for the swaps of the displayed pair,
`next` for the swap or load of the `_next` theme, `prev` for the load of the
`_prev` theme. -/
structure Tick where
  a : Outcome
  b : Outcome
  next : Outcome
  prev : Outcome
  deriving DecidableEq, Repr

namespace ThemeBank

/-- A rejection loop `do x = draw(); while (reject(x));` over the successive
draws.  `none` when every supplied draw is rejected: the loop has not exited. -/
def do_while (reject : Nat → Bool) : List Nat → Option Nat
  | [] => none
  | r :: rs => if reject r then do_while reject rs else some r

/-- The call `_themes[i].f()`: undefined when `i` is not an index of the
vector. -/
def with_theme (themes : List Theme) (i : Nat) (f : Theme → Option Theme) :
    Option (List Theme) :=
  match themes[i]? with
  | none => none
  | some t => (f t).map (fun t1 => themes.set i t1)

/-- Lines 230-233 of the constructor: `while (_prev == _a || _prev == _b ||
_prev == _next) ++_prev;`, run from `prev` for at most `fuel` tests. -/
def search_prev (a b next : Nat) : Nat → Nat → Nat
  | 0, prev => prev
  | fuel + 1, prev =>
    if prev = a ∨ prev = b ∨ prev = next then search_prev a b next fuel (prev + 1) else prev

/-- Lines 181-192 of the constructor: one theme per supplied message, a
default theme when none is supplied, and a copy of the last theme when there is
exactly one. -/
def initial_themes (themes : List ThemeProto) : List Theme :=
  let ts := themes.map (fun p => Theme.ofProto p.image_path p.animation_path)
  let ts := if themes.isEmpty then ts ++ [Theme.ofProto [] []] else ts
  if ts.length = 1 then ts ++ (ts.getLast?.map Theme.copy).toList else ts

/-- `ThemeBank::ThemeBank`, lines 175-235.  `switch_cooldown` is a constant of
`theme.h`, which is not part of the sources at hand, and is a parameter. -/
def construct (switch_cooldown : Nat) (themes : List ThemeProto) (image_cache_size : Nat)
    (o : Boot) : Option ThemeBank :=
  let ts := initial_themes themes
  let bank : ThemeBank :=
    { _themes := ts, _image_cache_size := image_cache_size, _updates := 0,
      _cooldown := switch_cooldown, _a := 0, _b := 0,
      _next := o.init_next, _prev := o.init_prev }
  if ts.length = 2 then
    let bank := { bank with _a := 0, _b := 1 }
    (with_theme ts 0 (fun t => some (t.set_target_load (image_cache_size / 2)))).bind fun ts =>
    (with_theme ts 1 (fun t => some (t.set_target_load (image_cache_size / 2)))).bind fun ts =>
    (with_theme ts 0 (fun t => t.perform_all_loads o.loads0)).bind fun ts =>
    (with_theme ts 1 (fun t => t.perform_all_loads o.loads1)).bind fun ts =>
    some { bank with _themes := ts }
  else
    let bank := { bank with _a := o.a }
    let bank := { bank with _b := o.b }
    (do_while (fun r => r == bank._b) o.next).bind fun next =>
    let bank := { bank with _next := next }
    (with_theme ts bank._a
      (fun t => some (t.set_target_load (image_cache_size / 3)))).bind fun ts =>
    (with_theme ts bank._b
      (fun t => some (t.set_target_load (image_cache_size / 3)))).bind fun ts =>
    (with_theme ts bank._next
      (fun t => some (t.set_target_load (image_cache_size / 3)))).bind fun ts =>
    (with_theme ts bank._a (fun t => t.perform_all_loads o.loads0)).bind fun ts =>
    (with_theme ts bank._b (fun t => t.perform_all_loads o.loads1)).bind fun ts =>
    if ts.length = 3 then
      (with_theme ts bank._next (fun t => t.perform_all_loads o.loads2)).bind fun ts =>
      some { bank with _themes := ts }
    else
      some { bank with
        _themes := ts, _prev := search_prev bank._a bank._b bank._next 4 0 }

/-- `ThemeBank::get`, lines 237-240. -/
def get (bank : ThemeBank) (alternate : Bool) : Option Theme :=
  if alternate then bank._themes[bank._a]? else bank._themes[bank._b]?

/-- `ThemeBank::change_themes`, lines 249-284.  `draws` lists the successive
results of `random_excluding(size, _prev)` in the rejection loop; the result
pairs the new state with the returned flag. -/
def change_themes (switch_cooldown : Nat) (bank : ThemeBank) (draws : List Nat) :
    Option (ThemeBank × Bool) :=
  let bank := { bank with _cooldown := switch_cooldown }
  if bank._themes.length < 3 then
    some ({ bank with _a := bank._b, _b := bank._a }, true)
  else if bank._themes.length = 3 then
    -- line 259 saves `t = _a`; `t` is not read afterwards
    let bank := { bank with _a := bank._b }
    let bank := { bank with _b := bank._next }
    let bank := { bank with _next := bank._a }
    some (bank, true)
  else
    match bank._themes[bank._prev]? with
    | none => none
    | some p =>
      if !p.all_loaded then some (bank, false)
      else
        match bank._themes[bank._next]? with
        | none => none
        | some n =>
          if !n.all_loaded then some (bank, false)
          else
            let bank := { bank with _prev := bank._a }
            let bank := { bank with _a := bank._b }
            let bank := { bank with _b := bank._next }
            match do_while (fun r => r == bank._a || r == bank._b) draws with
            | none => none
            | some next =>
              let bank := { bank with _next := next }
              (with_theme bank._themes bank._prev
                (fun t => some (t.set_target_load 0))).bind fun ts =>
              (with_theme ts bank._next
                (fun t => some (t.set_target_load (bank._image_cache_size / 3)))).bind fun ts =>
              some ({ bank with _themes := ts }, true)

/-- Lines 293-306 of `async_update`: the work of a tick that is not cooled
down. -/
def maintenance (bank : ThemeBank) (o : Tick) : Option ThemeBank :=
  let bank := { bank with _updates := bank._updates + 1 }
  (if bank._updates > 128 then
    (with_theme bank._themes bank._a (fun t => t.perform_swap o.a)).bind fun ts =>
    (with_theme ts bank._b (fun t => t.perform_swap o.b)).bind fun ts =>
    some { bank with _themes := ts, _updates := 0 }
  else some bank).bind fun bank =>
  if bank._themes.length = 3 then
    (with_theme bank._themes bank._next (fun t => t.perform_swap o.next)).bind fun ts =>
    some { bank with _themes := ts }
  else if bank._themes.length ≥ 4 then
    (with_theme bank._themes bank._prev (fun t => t.perform_load o.prev)).bind fun ts =>
    (with_theme ts bank._next (fun t => t.perform_load o.next)).bind fun ts =>
    some { bank with _themes := ts }
  else some bank

/-- `ThemeBank::async_update`, lines 286-307. -/
def async_update (bank : ThemeBank) (o : Tick) : Option ThemeBank :=
  if bank._cooldown != 0 then some { bank with _cooldown := bank._cooldown - 1 }
  else maintenance bank o

/-- `async_update` called once per element of the list, in order. -/
def async_updates (bank : ThemeBank) : List Tick → Option ThemeBank
  | [] => some bank
  | o :: os => (async_update bank o).bind (fun b1 => async_updates b1 os)

/-- Sum of `target_load` over all themes of the bank. -/
def target_sum (bank : ThemeBank) : Nat :=
  (bank._themes.map (fun t => t._target_load)).sum

/-- The `target_load` of every theme, in order. -/
def targets (bank : ThemeBank) : List Nat := bank._themes.map (fun t => t._target_load)

/-- Shape of the target loads: two themes at half the budget each, or three
themes at a third each, or at least four themes with a third at the distinct
slots `_a`, `_b`, `_next` and 0 elsewhere. -/
def budget_shape (bank : ThemeBank) : Prop :=
  bank.targets = [bank._image_cache_size / 2, bank._image_cache_size / 2] ∨
  bank.targets = [bank._image_cache_size / 3, bank._image_cache_size / 3,
    bank._image_cache_size / 3] ∨
  (4 ≤ bank.targets.length ∧
    bank._a < bank.targets.length ∧ bank._b < bank.targets.length ∧
    bank._next < bank.targets.length ∧
    bank._a ≠ bank._b ∧ bank._a ≠ bank._next ∧ bank._b ≠ bank._next ∧
    ∀ i : Nat, i < bank.targets.length → bank.targets[i]? =
      some (if i = bank._a ∨ i = bank._b ∨ i = bank._next then bank._image_cache_size / 3 else 0))

end ThemeBank

/-- Contract of the random collaborators during construction over `n` themes:
`random(n)` is below `n`, `random_excluding(n, a)` is below `n` and differs
from `a`. -/
def Boot.valid (o : Boot) (n : Nat) : Prop :=
  o.a < n ∧ (o.b < n ∧ o.b ≠ o.a) ∧ ∀ r ∈ o.next, r < n ∧ r ≠ o.a

/-- States reachable from construction by `change_themes()` and
`async_update()` calls, the random collaborators obeying their contracts:
the constructor draws only when three or more themes are supplied, and the
draws of `change_themes()` are results of `random_excluding(size, _prev)` with
`_prev` already set to the old `_a`. -/
inductive ThemeBank.Reachable (c : Nat) : ThemeBank → Prop
  | boot {themes : List ThemeProto} {cache : Nat} {o : Boot} {bank : ThemeBank} :
      (3 ≤ themes.length → o.valid themes.length) →
      ThemeBank.construct c themes cache o = some bank → ThemeBank.Reachable c bank
  | switch {bank bank1 : ThemeBank} {draws : List Nat} {r : Bool} :
      ThemeBank.Reachable c bank →
      (∀ d ∈ draws, d < bank._themes.length ∧ d ≠ bank._a) →
      ThemeBank.change_themes c bank draws = some (bank1, r) → ThemeBank.Reachable c bank1
  | tick {bank bank1 : ThemeBank} {o : Tick} :
      ThemeBank.Reachable c bank → ThemeBank.async_update bank o = some bank1 →
      ThemeBank.Reachable c bank1

/-! ## Concrete states used by the evaluations -/

/-- A theme without any path. -/
def bare_theme : Theme := Theme.ofProto [] []

/-- A theme with one image path, asked to hold one still and holding none:
`all_loaded()` is false. -/
def pending_theme : Theme := (Theme.ofProto ["a.png"] []).set_target_load 1

/-- A bank of three themes with slots `a = 0`, `b = 1`, `next = 2`. -/
def bank_of_three : ThemeBank :=
  { _themes := [bare_theme, bare_theme, bare_theme], _image_cache_size := 12,
    _updates := 0, _cooldown := 0, _a := 0, _b := 1, _next := 2, _prev := 0 }

/-- A bank of four themes with slots `a = 0`, `b = 1`, `next = 2`, `prev = 3`
whose `prev` theme is still loading. -/
def bank_not_ready : ThemeBank :=
  { _themes := [bare_theme, bare_theme, bare_theme, pending_theme], _image_cache_size := 12,
    _updates := 7, _cooldown := 0, _a := 0, _b := 1, _next := 2, _prev := 3 }

/-- A bank of five themes with slots `a = 0`, `b = 1`, `next = 2`, `prev = 3`
in which every theme is fully loaded. -/
def bank_ready : ThemeBank :=
  { _themes := [bare_theme, bare_theme, bare_theme, bare_theme, bare_theme],
    _image_cache_size := 9, _updates := 0, _cooldown := 0,
    _a := 0, _b := 1, _next := 2, _prev := 3 }

/-- A bank of two themes. -/
def bank_of_two : ThemeBank :=
  { _themes := [bare_theme, bare_theme], _image_cache_size := 10,
    _updates := 3, _cooldown := 0, _a := 0, _b := 1, _next := 0, _prev := 0 }

/-- An outcome in which every decode fails. -/
def failed_outcome : Outcome :=
  { chance := false, frames := [], unload_pick := 0, load_pick := 0, image := Image.empty }

/-- An outcome in which every decode succeeds. -/
def good_outcome : Outcome :=
  { chance := false, frames := [Image.data 1, Image.data 2], unload_pick := 0, load_pick := 0,
    image := Image.data 7 }

/-- The state of `bank_ready` after a successful switch with
`switch_cooldown = 2` whose rejection loop drew `4`. -/
def bank_switched : ThemeBank :=
  { _themes := [bare_theme, bare_theme, bare_theme, bare_theme, bare_theme.set_target_load 3],
    _image_cache_size := 9, _updates := 0, _cooldown := 2,
    _a := 1, _b := 2, _next := 4, _prev := 0 }

/-- A theme whose loaded animation has a single frame. -/
def single_frame_theme : Theme :=
  { bare_theme with _animation_images := [Image.data 1] }

/-- A theme with one image path and one animation path, asked to hold one
still, with nothing loaded yet. -/
def fresh_theme : Theme := (Theme.ofProto ["a.png"] ["x.gif"]).set_target_load 1

/-- A theme with three image paths and one animation path, asked to hold two
stills, with nothing loaded yet. -/
def gallery_theme : Theme :=
  (Theme.ofProto ["a.png", "b.png", "c.png"] ["x.gif"]).set_target_load 2

/-- Five supplied themes without any path. -/
def five_protos : List ThemeProto := List.replicate 5 { image_path := [], animation_path := [] }

/-- Collaborator results for a construction over five themes: `a = 0`,
`b = 1`, the loop for `next` draws `1` and then `2`. -/
def boot_outcome : Boot :=
  { a := 0, b := 1, next := [1, 2], loads0 := [], loads1 := [], loads2 := [],
    init_next := 0, init_prev := 0 }

/-- The bank constructed from `five_protos` with budget 9 and
`switch_cooldown = 1`. -/
def bank_booted : ThemeBank :=
  { _themes := [bare_theme.set_target_load 3, bare_theme.set_target_load 3,
      bare_theme.set_target_load 3, bare_theme, bare_theme],
    _image_cache_size := 9, _updates := 0, _cooldown := 1,
    _a := 0, _b := 1, _next := 2, _prev := 3 }

/-- The state of `bank_booted` after one cooled-down tick, one tick of
maintenance and a switch whose rejection loop drew `2` and then `4`. -/
def bank_rotated : ThemeBank :=
  { _themes := [bare_theme, bare_theme.set_target_load 3,
      bare_theme.set_target_load 3, bare_theme, bare_theme.set_target_load 3],
    _image_cache_size := 9, _updates := 1, _cooldown := 1,
    _a := 1, _b := 2, _next := 4, _prev := 0 }

/-- A tick in which every decode succeeds. -/
def good_tick : Tick :=
  { a := good_outcome, b := good_outcome, next := good_outcome, prev := good_outcome }

/-- Theme states reachable from a freshly constructed theme by
`set_target_load`, `perform_load`, `perform_swap` and `perform_all_loads`
calls, for every outcome of the collaborators. -/
inductive Theme.Reachable : Theme → Prop
  | fresh (image_path animation_path : List String) :
      Theme.Reachable (Theme.ofProto image_path animation_path)
  | set_target {t : Theme} (target_load : Nat) :
      Theme.Reachable t → Theme.Reachable (t.set_target_load target_load)
  | load {t t1 : Theme} {o : Outcome} :
      Theme.Reachable t → t.perform_load o = some t1 → Theme.Reachable t1
  | swap {t t1 : Theme} {o : Outcome} :
      Theme.Reachable t → t.perform_swap o = some t1 → Theme.Reachable t1
  | all_loads {t t1 : Theme} {os : List Outcome} :
      Theme.Reachable t → t.perform_all_loads os = some t1 → Theme.Reachable t1

/-- A theme with three image paths and no animation, asked to hold three
stills, with nothing loaded yet. -/
def trio_theme : Theme := (Theme.ofProto ["a.png", "b.png", "c.png"] []).set_target_load 3

/-- The state of `trio_theme` after three successful loads. -/
def trio_loaded : Theme :=
  { _image_paths := ⟨[false, false, false]⟩, _animation_paths := ⟨[]⟩, _target_load := 3,
    _images := [(0, Image.data 7), (1, Image.data 7), (2, Image.data 7)],
    _animation_images := [],
    trace := [Work.load_image, Work.load_image, Work.load_image] }

/-- A theme with four image paths and no animation, asked to hold three
stills, with nothing loaded yet. -/
def quad_theme : Theme :=
  (Theme.ofProto ["a.png", "b.png", "c.png", "d.png"] []).set_target_load 3

/-- The state of `quad_theme` after three successful loads. -/
def quad_loaded : Theme :=
  { _image_paths := ⟨[false, false, false, true]⟩, _animation_paths := ⟨[]⟩, _target_load := 3,
    _images := [(0, Image.data 7), (1, Image.data 7), (2, Image.data 7)],
    _animation_images := [],
    trace := [Work.load_image, Work.load_image, Work.load_image] }

/-- Number of still operations `perform_load` has left to do: the surplus over
the target, or the deficit as far as enabled paths remain. -/
def Theme.backlog (t : Theme) : Nat :=
  if t._target_load ≤ t.loaded then t.loaded - t._target_load
  else min (t._target_load - t.loaded) t._image_paths.enabled_count

/-- Every decode during construction succeeds, and each bootstrap
`perform_all_loads` has `q + 1` outcomes at hand. -/
def Boot.sufficient (o : Boot) (q : Nat) : Prop :=
  (∀ x ∈ o.loads0 ++ o.loads1 ++ o.loads2, x.decodes = true) ∧
  q + 1 ≤ o.loads0.length ∧ q + 1 ≤ o.loads1.length ∧ q + 1 ≤ o.loads2.length

/-- Collaborator results for a construction over at most two themes with
budget 2: two successful outcomes for each bootstrap load. -/
def small_boot : Boot :=
  { a := 0, b := 0, next := [], loads0 := [good_outcome, good_outcome],
    loads1 := [good_outcome, good_outcome], loads2 := [good_outcome, good_outcome],
    init_next := 0, init_prev := 0 }

/-- Five supplied themes: the first has one image path, the others have no
path at all. -/
def leaky_protos : List ThemeProto :=
  [{ image_path := ["a.png"], animation_path := [] }, { image_path := [], animation_path := [] },
   { image_path := [], animation_path := [] }, { image_path := [], animation_path := [] },
   { image_path := [], animation_path := [] }]

/-- Collaborator results for the construction over `leaky_protos`: `a = 0`,
`b = 1`, `next = 2`, one successful load for theme 0. -/
def leaky_boot : Boot :=
  { a := 0, b := 1, next := [2], loads0 := [good_outcome], loads1 := [], loads2 := [],
    init_next := 0, init_prev := 0 }

/-- Theme 0 of `leaky_protos` with its one still loaded. -/
def leaky_theme : Theme :=
  { _image_paths := ⟨[false]⟩, _animation_paths := ⟨[]⟩, _target_load := 1,
    _images := [(0, Image.data 7)], _animation_images := [], trace := [Work.load_image] }

/-- The bank constructed from `leaky_protos` with budget 3 and
`switch_cooldown = 1`. -/
def leaky_bank : ThemeBank :=
  { _themes := [leaky_theme, bare_theme.set_target_load 1, bare_theme.set_target_load 1,
      bare_theme, bare_theme],
    _image_cache_size := 3, _updates := 0, _cooldown := 1,
    _a := 0, _b := 1, _next := 2, _prev := 3 }

/-- The state of `leaky_bank` after a switch whose rejection loop drew `4`. -/
def leaky_bank1 : ThemeBank :=
  { _themes := [leaky_theme.set_target_load 0, bare_theme.set_target_load 1,
      bare_theme.set_target_load 1, bare_theme, bare_theme.set_target_load 1],
    _image_cache_size := 3, _updates := 0, _cooldown := 1,
    _a := 1, _b := 2, _next := 4, _prev := 0 }

/-- The state of `leaky_bank1` after a second switch whose rejection loop drew
`3`. -/
def leaked_bank : ThemeBank :=
  { _themes := [leaky_theme.set_target_load 0, bare_theme, bare_theme.set_target_load 1,
      bare_theme.set_target_load 1, bare_theme.set_target_load 1],
    _image_cache_size := 3, _updates := 0, _cooldown := 1,
    _a := 2, _b := 4, _next := 3, _prev := 1 }

/-! ## The switch protocol -/

namespace ThemeBank

/-- With exactly three themes `change_themes` succeeds and assigns
`_a := _b`, `_b := _next`, `_next := _a` in this order, so that the new `_next`
is the old `_b`; the saved old `_a` is not used. -/
theorem change_themes_three (c : Nat) (bank : ThemeBank) (draws : List Nat)
    (h : bank._themes.length = 3) :
    change_themes c bank draws =
      some ({ bank with _cooldown := c, _a := bank._b, _b := bank._next, _next := bank._b },
        true) := by
  simp [change_themes, h]

/-- C1, evaluation at the failing input: on three themes with slots
`(a, b, next) = (0, 1, 2)` one `change_themes()` returns true with slots
`(1, 2, 1)`; the new `next` is the old `b`, not the old `a`. -/
theorem change_themes_three_loses_a :
    change_themes 5 bank_of_three [] =
      some ({ bank_of_three with _cooldown := 5, _a := 1, _b := 2, _next := 1 }, true) := by
  decide

/-- C2, evaluation at the failing input: on three themes with the distinct
slots `(0, 1, 2)` three successive `change_themes()` calls end with slots
`(1, 2, 1)`, not with the original assignment. -/
theorem change_themes_three_times :
    ((change_themes 5 bank_of_three []).bind fun r1 =>
      (change_themes 5 r1.1 []).bind fun r2 => change_themes 5 r2.1 []) =
      some ({ bank_of_three with _cooldown := 5, _a := 1, _b := 2, _next := 1 }, true) := by
  decide

/-- C3 as stated fails: on a bank of four themes whose `prev` theme is not
`all_loaded()`, `change_themes()` returns false but the bank state is not the
one before the call, because the cooldown counter went from 0 to
`switch_cooldown = 5`. -/
theorem change_themes_not_ready_mutates :
    4 ≤ bank_not_ready._themes.length ∧
    (bank_not_ready._themes[bank_not_ready._prev]?).map Theme.all_loaded = some false ∧
    change_themes 5 bank_not_ready [] = some ({ bank_not_ready with _cooldown := 5 }, false) ∧
    change_themes 5 bank_not_ready [] ≠ some (bank_not_ready, false) := by
  decide

/-- C3 as amended: with four or more themes, when the `prev` theme or the
`next` theme is not `all_loaded()`, `change_themes()` returns false and
changes nothing but the cooldown counter, which is set to `switch_cooldown`:
slots, themes, cache budget and tick counter are those before the call. -/
theorem change_themes_not_ready (c : Nat) (bank : ThemeBank) (draws : List Nat)
    (p n : Theme) (hlen : 4 ≤ bank._themes.length)
    (hp : bank._themes[bank._prev]? = some p) (hn : bank._themes[bank._next]? = some n)
    (hnot : p.all_loaded = false ∨ n.all_loaded = false) :
    change_themes c bank draws = some ({ bank with _cooldown := c }, false) := by
  have h3 : ¬ bank._themes.length < 3 := by omega
  have h3' : ¬ bank._themes.length = 3 := by omega
  rcases hnot with h | h
  · simp [change_themes, h3, h3', hp, h]
  · cases hpl : p.all_loaded <;> simp [change_themes, h3, h3', hp, hn, h, hpl]

/-- Witness of `change_themes_not_ready` on `bank_not_ready`. -/
theorem change_themes_not_ready_witness :
    change_themes 5 bank_not_ready [2, 4] = some ({ bank_not_ready with _cooldown := 5 }, false) :=
  change_themes_not_ready 5 bank_not_ready [2, 4] pending_theme bare_theme
    (by decide) (by decide) (by decide) (Or.inl (by decide))

/-- A rejection loop that exits returns one of the draws, and one that is not
rejected. -/
theorem do_while_some {reject : Nat → Bool} {draws : List Nat} {x : Nat}
    (h : do_while reject draws = some x) : x ∈ draws ∧ reject x = false := by
  induction draws with
  | nil => simp [do_while] at h
  | cons r rs ih =>
    unfold do_while at h
    by_cases hr : reject r = true
    · rw [if_pos hr] at h
      exact ⟨List.mem_cons_of_mem _ (ih h).1, (ih h).2⟩
    · rw [if_neg hr] at h
      cases h
      exact ⟨List.mem_cons_self _ _, by simpa using hr⟩

/-- A rejection loop exits as soon as one draw is not rejected. -/
theorem do_while_exits {reject : Nat → Bool} {draws : List Nat}
    (h : ∃ d ∈ draws, reject d = false) : ∃ x, do_while reject draws = some x := by
  induction draws with
  | nil => simp at h
  | cons r rs ih =>
    unfold do_while
    by_cases hr : reject r = true
    · rw [if_pos hr]
      obtain ⟨d, hd, hrd⟩ := h
      rcases List.mem_cons.1 hd with rfl | hd
      · rw [hr] at hrd; cases hrd
      · exact ih ⟨d, hd, hrd⟩
    · rw [if_neg hr]; exact ⟨r, rfl⟩

/-- A total operation applied at a valid index replaces that one theme. -/
theorem with_theme_total (themes : List Theme) (i : Nat) (f : Theme → Theme)
    (h : i < themes.length) :
    with_theme themes i (fun t => some (f t)) = some (themes.set i (f themes[i])) := by
  simp [with_theme, List.getElem?_eq_getElem h]

/-- C4: with four or more themes, pairwise distinct valid slots and both the
`prev` and the `next` theme `all_loaded()`, on every sequence of draws of
`random_excluding(size, _prev)` that holds a draw the rejection loop accepts,
`change_themes()` returns true with new `prev` = old `a`, new `a` = old `b`,
new `b` = old `next`, and a new `next` that is a valid index different from
the new `prev`, `a` and `b`; the four slots stay pairwise distinct. -/
theorem change_themes_ready (c : Nat) (bank : ThemeBank) (draws : List Nat) (p n : Theme)
    (hlen : 4 ≤ bank._themes.length)
    (ha : bank._a < bank._themes.length)
    (hab : bank._a ≠ bank._b) (han : bank._a ≠ bank._next) (_hap : bank._a ≠ bank._prev)
    (hbn : bank._b ≠ bank._next) (_hbp : bank._b ≠ bank._prev) (_hnp : bank._next ≠ bank._prev)
    (hp : bank._themes[bank._prev]? = some p) (hn : bank._themes[bank._next]? = some n)
    (hpl : p.all_loaded = true) (hnl : n.all_loaded = true)
    (hdraws : ∀ d ∈ draws, d < bank._themes.length ∧ d ≠ bank._a)
    (hexit : ∃ d ∈ draws, d ≠ bank._b ∧ d ≠ bank._next) :
    ∃ bank1, change_themes c bank draws = some (bank1, true) ∧
      bank1._prev = bank._a ∧ bank1._a = bank._b ∧ bank1._b = bank._next ∧
      bank1._themes.length = bank._themes.length ∧
      bank1._next < bank1._themes.length ∧
      bank1._next ≠ bank1._prev ∧ bank1._next ≠ bank1._a ∧ bank1._next ≠ bank1._b ∧
      bank1._a ≠ bank1._b ∧ bank1._a ≠ bank1._prev ∧ bank1._b ≠ bank1._prev := by
  have h3 : ¬ bank._themes.length < 3 := by omega
  have h3' : ¬ bank._themes.length = 3 := by omega
  obtain ⟨nx, hnx⟩ : ∃ x, do_while (fun r => r == bank._b || r == bank._next) draws = some x := by
    apply do_while_exits
    obtain ⟨d, hd, h1, h2⟩ := hexit
    exact ⟨d, hd, by simp [h1, h2]⟩
  obtain ⟨hmem, hrej⟩ := do_while_some hnx
  have hrej' : nx ≠ bank._b ∧ nx ≠ bank._next := by simpa using hrej
  obtain ⟨hlt, hna⟩ := hdraws nx hmem
  have hlt' : nx < (bank._themes.set bank._a (bank._themes[bank._a].set_target_load 0)).length := by
    simpa using hlt
  refine ⟨{ bank with
      _cooldown := c, _prev := bank._a, _a := bank._b, _b := bank._next, _next := nx,
      _themes := (bank._themes.set bank._a (bank._themes[bank._a].set_target_load 0)).set nx
        (((bank._themes.set bank._a (bank._themes[bank._a].set_target_load 0))[nx]).set_target_load
          (bank._image_cache_size / 3)) }, ?_, ?_⟩
  · simp only [change_themes, h3, h3', hp, hn, hpl, hnl, hnx, if_false, Bool.not_true,
      Bool.false_eq_true]
    rw [with_theme_total _ _ _ ha]
    simp only [Option.some_bind]
    rw [with_theme_total _ _ _ hlt']
    simp
  · refine ⟨rfl, rfl, rfl, by simp, by simpa using hlt, hna, hrej'.1, hrej'.2, hbn, ?_, ?_⟩
    · exact fun h => hab h.symm
    · exact fun h => han h.symm

/-- Witness of `change_themes_ready` on `bank_ready`: the draws `1, 2, 4` are
rejected twice and the loop exits with `next = 4`. -/
theorem change_themes_ready_witness :
    ∃ bank1, change_themes 5 bank_ready [1, 2, 4] = some (bank1, true) ∧
      bank1._prev = bank_ready._a ∧ bank1._a = bank_ready._b ∧ bank1._b = bank_ready._next ∧
      bank1._themes.length = bank_ready._themes.length ∧
      bank1._next < bank1._themes.length ∧
      bank1._next ≠ bank1._prev ∧ bank1._next ≠ bank1._a ∧ bank1._next ≠ bank1._b ∧
      bank1._a ≠ bank1._b ∧ bank1._a ≠ bank1._prev ∧ bank1._b ≠ bank1._prev :=
  change_themes_ready 5 bank_ready [1, 2, 4] bare_theme bare_theme
    (by decide) (by decide) (by decide) (by decide) (by decide) (by decide) (by decide)
    (by decide) (by decide) (by decide) (by decide) (by decide) (by decide)
    ⟨4, by decide, by decide, by decide⟩

/-! ## The cooldown -/

/-- Every returning `change_themes` leaves the cooldown counter at
`switch_cooldown`. -/
theorem change_themes_cooldown {c : Nat} {bank bank1 : ThemeBank} {draws : List Nat} {r : Bool}
    (h : change_themes c bank draws = some (bank1, r)) : bank1._cooldown = c := by
  unfold change_themes at h
  simp only at h
  split at h
  · cases h; rfl
  · split at h
    · cases h; rfl
    · split at h
      · cases h
      · split at h
        · cases h; rfl
        · split at h
          · cases h
          · split at h
            · cases h; rfl
            · split at h
              · cases h
              · simp only [Option.bind_eq_some] at h
                obtain ⟨ts1, -, ts2, -, h⟩ := h
                cases h; rfl

/-- While the cooldown counter is at least the number of ticks, the ticks
only count it down. -/
theorem async_updates_cooling (ticks : List Tick) :
    ∀ bank : ThemeBank, ticks.length ≤ bank._cooldown →
      async_updates bank ticks = some { bank with _cooldown := bank._cooldown - ticks.length } := by
  induction ticks with
  | nil => intro bank _; simp [async_updates]
  | cons o os ih =>
    intro bank h
    have h0 : bank._cooldown ≠ 0 := by simp only [List.length_cons] at h; omega
    have hle : os.length ≤ bank._cooldown - 1 := by simp only [List.length_cons] at h; omega
    simp only [async_updates, async_update, bne_iff_ne, ne_eq, h0, not_false_eq_true, if_true,
      Option.some_bind]
    rw [ih _ hle]
    simp only [List.length_cons]
    congr 2
    omega

/-- A tick of maintenance that returns moves the tick counter to the next
value, or to 0 once that value exceeds 128. -/
theorem maintenance_updates {bank bank2 : ThemeBank} {o : Tick}
    (h : maintenance bank o = some bank2) :
    bank2._updates = if 128 < bank._updates + 1 then 0 else bank._updates + 1 := by
  unfold maintenance at h
  simp only [Option.bind_eq_some] at h
  obtain ⟨bank1, h1, h2⟩ := h
  have hu : bank1._updates = if 128 < bank._updates + 1 then 0 else bank._updates + 1 := by
    by_cases hc : 128 < bank._updates + 1
    · rw [if_pos (by simpa using hc)] at h1
      simp only [Option.bind_eq_some] at h1
      obtain ⟨ts1, -, ts2, -, h1⟩ := h1
      cases h1
      simp [hc]
    · rw [if_neg (by simpa using hc)] at h1
      cases h1
      simp [hc]
  rw [← hu]
  split at h2
  · simp only [Option.bind_eq_some] at h2
    obtain ⟨ts, -, h2⟩ := h2
    cases h2; rfl
  · split at h2
    · simp only [Option.bind_eq_some] at h2
      obtain ⟨ts1, -, ts2, -, h2⟩ := h2
      cases h2; rfl
    · cases h2; rfl

/-- C5 as stated fails: with `switch_cooldown = 2`, after a `change_themes()`
that returned true, the `async_update()` call at position 2 still only
decrements the cooldown counter: after two calls the state is the state after
the switch with the cooldown at 0, tick counter and themes untouched. -/
theorem cooldown_position_two_idle :
    (change_themes 2 bank_ready [4]).map Prod.snd = some true ∧
    ((change_themes 2 bank_ready [4]).bind fun r => async_updates r.1 [good_tick, good_tick]) =
      (change_themes 2 bank_ready [4]).map (fun r => { r.1 with _cooldown := 0 }) := by
  decide

/-- C5 as amended: after a `change_themes()` call that returned true, each of
the next `switch_cooldown` calls of `async_update()` only decrements the
cooldown counter (themes and tick counter unchanged), and the call at position
`switch_cooldown + 1` is the first that performs the maintenance work, which
moves the tick counter. -/
theorem cooldown_after_switch (c : Nat) (bank bank1 : ThemeBank) (draws : List Nat)
    (h : change_themes c bank draws = some (bank1, true)) :
    (∀ ticks : List Tick, ticks.length ≤ c →
      async_updates bank1 ticks = some { bank1 with _cooldown := c - ticks.length }) ∧
    (∀ (ticks : List Tick) (o : Tick), ticks.length = c →
      async_updates bank1 (ticks ++ [o]) = maintenance { bank1 with _cooldown := 0 } o) ∧
    (∀ (o : Tick) (bank2 : ThemeBank), maintenance { bank1 with _cooldown := 0 } o = some bank2 →
      bank2._updates = (if 128 < bank1._updates + 1 then 0 else bank1._updates + 1) ∧
      bank2._updates ≠ bank1._updates) := by
  have hc : bank1._cooldown = c := change_themes_cooldown h
  refine ⟨?_, ?_, ?_⟩
  · intro ticks hl
    rw [async_updates_cooling ticks bank1 (by omega), hc]
  · intro ticks o hl
    have hrun : ∀ (l : List Tick) (b b1 : ThemeBank), async_updates b l = some b1 →
        async_updates b (l ++ [o]) = async_update b1 o := by
      intro l
      induction l with
      | nil =>
        intro b b1 hb
        simp only [async_updates, Option.some.injEq] at hb
        subst hb
        simp only [List.nil_append, async_updates]
        cases async_update b o <;> rfl
      | cons x xs ih =>
        intro b b1 hb
        simp only [async_updates, Option.bind_eq_some] at hb
        obtain ⟨b2, hb2, hb⟩ := hb
        simp only [List.cons_append, async_updates, hb2, Option.some_bind]
        exact ih b2 b1 hb
    rw [hrun ticks bank1 _ (async_updates_cooling ticks bank1 (by omega))]
    simp [async_update, hc, hl]
  · intro o bank2 h2
    have hu := maintenance_updates h2
    simp only at hu
    refine ⟨hu, ?_⟩
    rw [hu]
    split <;> omega

/-- Witness of `cooldown_after_switch`: two ticks after the switch of
`bank_ready` with `switch_cooldown = 2` only bring the cooldown to 0. -/
theorem cooldown_after_switch_witness :
    async_updates bank_switched [good_tick, good_tick] =
      some { bank_switched with _cooldown := 2 - [good_tick, good_tick].length } :=
  (cooldown_after_switch 2 bank_ready bank_switched [4] (by decide)).1
    [good_tick, good_tick] (by decide)

end ThemeBank

/-! ## The ping-pong index -/

namespace Theme

/-- For a frame vector of length at least 2 the ping-pong index is defined and
below the length. -/
theorem animation_index_lt (L frame : Nat) (hL : 2 ≤ L) :
    ∃ i, animation_index L frame = some i ∧ i < L := by
  have hm : ¬ 2 * L - 2 = 0 := by omega
  have hf : frame % (2 * L - 2) < 2 * L - 2 := Nat.mod_lt _ (by omega)
  refine ⟨_, by simp only [animation_index, hm, if_false]; rfl, ?_⟩
  split <;> omega

/-- C6, evaluation at the failing input: for a loaded animation of a single
frame, `get_animation(frame)` computes `frame % 0` for every `frame`; the
index is undefined. -/
theorem get_animation_single_frame (frame : Nat) :
    get_animation single_frame_theme frame = none ∧ animation_index 1 frame = none := by
  constructor <;> rfl

/-- C7: for a frame vector of length `L ≥ 2` the indices selected for
`frame = 0, ..., 2L-3` are `0, 1, ..., L-1, L-2, ..., 1`, the index is periodic
in `frame` with period `2L-2`, and consecutive frames select indices that
differ by exactly 1. -/
theorem animation_index_ping_pong (L : Nat) (hL : 2 ≤ L) :
    (List.range (2 * L - 2)).map (animation_index L) =
      (List.range L ++ (List.range (L - 2)).map (fun k => L - 2 - k)).map some ∧
    (∀ frame, animation_index L (frame + (2 * L - 2)) = animation_index L frame) ∧
    (∀ frame, ∃ i j, animation_index L frame = some i ∧
      animation_index L (frame + 1) = some j ∧ (j = i + 1 ∨ i = j + 1)) := by
  have hm : ¬ 2 * L - 2 = 0 := by omega
  refine ⟨?_, ?_, ?_⟩
  · apply List.ext_getElem
    · simp only [List.length_map, List.length_range, List.length_append]; omega
    · intro n h1 h2
      simp only [List.length_map, List.length_range] at h1
      simp only [List.getElem_map, List.getElem_range, animation_index, hm, if_false,
        Nat.mod_eq_of_lt h1, Option.some.injEq]
      by_cases hn : n < L
      · rw [if_pos hn, List.getElem_append_left (by simpa using hn)]
        simp
      · rw [if_neg hn, List.getElem_append_right (by simpa using hn)]
        simp only [List.getElem_map, List.getElem_range, List.length_range]
        omega
  · intro frame
    simp only [animation_index, hm, if_false, Nat.add_mod_right]
  · intro frame
    have hf : frame % (2 * L - 2) < 2 * L - 2 := Nat.mod_lt _ (by omega)
    have hone : 1 % (2 * L - 2) = 1 := Nat.mod_eq_of_lt (by omega)
    have hs : (frame + 1) % (2 * L - 2) =
        if frame % (2 * L - 2) + 1 = 2 * L - 2 then 0 else frame % (2 * L - 2) + 1 := by
      rw [Nat.add_mod, hone]
      split
      · next h => rw [h, Nat.mod_self]
      · exact Nat.mod_eq_of_lt (by omega)
    refine ⟨_, _, by simp only [animation_index, hm, if_false]; rfl,
      by simp only [animation_index, hm, if_false]; rfl, ?_⟩
    simp only [hs]
    split_ifs <;> omega

/-- Witness of `animation_index_ping_pong` for three frames: the indices of
frames `0, 1, 2, 3` are `0, 1, 2, 1`. -/
theorem animation_index_ping_pong_witness :
    (List.range (2 * 3 - 2)).map (animation_index 3) =
      (List.range 3 ++ (List.range (3 - 2)).map (fun k => 3 - 2 - k)).map some ∧
    (∀ frame, animation_index 3 (frame + (2 * 3 - 2)) = animation_index 3 frame) ∧
    (∀ frame, ∃ i j, animation_index 3 frame = some i ∧
      animation_index 3 (frame + 1) = some j ∧ (j = i + 1 ∨ i = j + 1)) :=
  animation_index_ping_pong 3 (by decide)

/-! ## One step of loading -/

/-- The animation part of `perform_load` runs at most one animation
operation and touches nothing else but the frame vector. -/
theorem perform_load_animation_trace (t : Theme) (o : Outcome) :
    ∃ anim, (perform_load_animation t o).trace = t.trace ++ anim ∧
      (anim = [] ∨ anim = [Work.load_animation] ∨ anim = [Work.unload_animation]) := by
  unfold perform_load_animation
  split
  · split
    · refine ⟨[Work.load_animation], ?_, Or.inr (Or.inl rfl)⟩
      unfold load_animation_internal
      split <;> rfl
    · split
      · exact ⟨[Work.unload_animation], rfl, Or.inr (Or.inr rfl)⟩
      · exact ⟨[], by simp, Or.inl rfl⟩
  · exact ⟨[], by simp, Or.inl rfl⟩

/-- A returning `load_image_internal` logs one still load. -/
theorem load_image_internal_trace {t t1 : Theme} {pick : Nat} {image : Image}
    (h : load_image_internal t pick image = some t1) :
    t1.trace = t.trace ++ [Work.load_image] := by
  unfold load_image_internal at h
  split at h
  · cases h
  · simp only at h
    split at h <;> (cases h; rfl)

/-- A returning `unload_image_internal` logs one still unload. -/
theorem unload_image_internal_trace {t t1 : Theme} {pick : Nat}
    (h : unload_image_internal t pick = some t1) :
    t1.trace = t.trace ++ [Work.unload_image] := by
  unfold unload_image_internal at h
  split at h
  · cases h
  · cases h; rfl

/-- C9 as stated fails: on a theme with one image path and one animation
path, target load 1 and nothing loaded, a single `perform_load()` with
successful decodes loads the animation and loads a still: two units of
work. -/
theorem perform_load_two_units :
    perform_load fresh_theme good_outcome =
      some { _image_paths := ⟨[false]⟩, _animation_paths := ⟨[true]⟩, _target_load := 1,
             _images := [(0, Image.data 7)],
             _animation_images := [Image.data 1, Image.data 2],
             trace := [Work.load_animation, Work.load_image] } ∧
    fresh_theme._images = [] ∧ fresh_theme._animation_images = [] ∧ fresh_theme.trace = [] := by
  decide

/-- C9 as amended: a single `perform_load()` call runs at most one operation
on the animation (load or unload) followed by at most one operation on the
stills cache (load one still or unload one still), hence at most two units of
work, one per cache. -/
theorem perform_load_units (t t1 : Theme) (o : Outcome) (h : perform_load t o = some t1) :
    ∃ anim still, t1.trace = t.trace ++ anim ++ still ∧
      (anim = [] ∨ anim = [Work.load_animation] ∨ anim = [Work.unload_animation]) ∧
      (still = [] ∨ still = [Work.load_image] ∨ still = [Work.unload_image]) := by
  obtain ⟨anim, ha, hanim⟩ := perform_load_animation_trace t o
  unfold perform_load at h
  simp only at h
  split at h
  · exact ⟨anim, [Work.load_image], by rw [load_image_internal_trace h, ha], hanim,
      Or.inr (Or.inl rfl)⟩
  · split at h
    · exact ⟨anim, [Work.unload_image], by rw [unload_image_internal_trace h, ha], hanim,
        Or.inr (Or.inr rfl)⟩
    · cases h
      exact ⟨anim, [], by rw [ha]; simp, hanim, Or.inl rfl⟩

/-- Witness of `perform_load_units` on `fresh_theme`. -/
theorem perform_load_units_witness :
    ∃ anim still,
      [Work.load_animation, Work.load_image] = fresh_theme.trace ++ anim ++ still ∧
      (anim = [] ∨ anim = [Work.load_animation] ∨ anim = [Work.unload_animation]) ∧
      (still = [] ∨ still = [Work.load_image] ∨ still = [Work.unload_image]) :=
  perform_load_units fresh_theme
    { _image_paths := ⟨[false]⟩, _animation_paths := ⟨[true]⟩, _target_load := 1,
      _images := [(0, Image.data 7)],
      _animation_images := [Image.data 1, Image.data 2],
      trace := [Work.load_animation, Work.load_image] }
    good_outcome (by decide)

end Theme

/-! ## Flags and candidates -/

namespace PathCollection

/-- The candidates for a flag are the indices carrying that flag. -/
theorem mem_candidates (c : PathCollection) (flag : Bool) (i : Nat) :
    i ∈ c.candidates flag ↔ c.enabled[i]? = some flag := by
  simp only [candidates, List.mem_filter, List.mem_range, beq_iff_eq]
  constructor
  · exact fun h => h.2
  · intro h
    obtain ⟨hlt, -⟩ := List.getElem?_eq_some.1 h
    exact ⟨hlt, h⟩

/-- No index is listed twice among the candidates. -/
theorem candidates_nodup (c : PathCollection) (flag : Bool) : (c.candidates flag).Nodup :=
  (List.nodup_range _).filter _

/-- An index returned by `next_index(flag)` carries the flag. -/
theorem next_index_some {c : PathCollection} {flag : Bool} {pick i : Nat}
    (h : c.next_index flag pick = some i) : c.enabled[i]? = some flag :=
  (mem_candidates c flag i).1 (List.mem_iff_getElem?.2 ⟨_, h⟩)

/-- With a candidate at hand `next_index(flag)` is defined. -/
theorem next_index_defined {c : PathCollection} {flag : Bool} {i : Nat} (pick : Nat)
    (h : c.enabled[i]? = some flag) : ∃ j, c.next_index flag pick = some j := by
  have hm := (mem_candidates c flag i).2 h
  have hpos : 0 < (c.candidates flag).length := List.length_pos_of_mem hm
  exact ⟨_, List.getElem?_eq_getElem (Nat.mod_lt _ hpos)⟩

/-- A positive `enabled_count()` comes with an enabled index. -/
theorem enabled_index_of_count {c : PathCollection} (h : c.enabled_count ≠ 0) :
    ∃ i : Nat, c.enabled[i]? = some true := by
  have hm : true ∈ c.enabled := List.count_pos_iff.1 (Nat.pos_of_ne_zero h)
  exact List.mem_iff_getElem?.1 hm

/-- Disabling an enabled index lowers `enabled_count()` by one. -/
theorem enabled_count_disable {c : PathCollection} {i : Nat} (h : c.enabled[i]? = some true) :
    (c.set_enabled i false).enabled_count + 1 = c.enabled_count := by
  obtain ⟨hlt, hi⟩ := List.getElem?_eq_some.1 h
  have hpos : 0 < c.enabled.count true :=
    List.count_pos_iff.2 (List.mem_iff_getElem?.2 ⟨_, h⟩)
  simp only [set_enabled, enabled_count, List.count_set _ _ _ _ hlt, hi]
  simp
  omega

/-- Enabling a disabled index raises `enabled_count()` by one. -/
theorem enabled_count_enable {c : PathCollection} {i : Nat} (h : c.enabled[i]? = some false) :
    (c.set_enabled i true).enabled_count = c.enabled_count + 1 := by
  obtain ⟨hlt, hi⟩ := List.getElem?_eq_some.1 h
  simp only [set_enabled, enabled_count, List.count_set _ _ _ _ hlt, hi]
  simp

/-- The flag read back after `set_enabled`. -/
theorem set_enabled_get {c : PathCollection} {i : Nat} (v : Bool) (j : Nat)
    (hlt : i < c.enabled.length) :
    (c.set_enabled i v).enabled[j]? = if i = j then some v else c.enabled[j]? := by
  simp only [set_enabled, List.getElem?_set, hlt, if_true]

end PathCollection

/-! ## Loading until the target is met -/

namespace Theme

/-- Consistency spelled out: the keys are distinct, and an index is a key
exactly when its flag is `false`. -/
theorem consistent_iff (t : Theme) :
    t.consistent ↔ t.keys.Nodup ∧ ∀ i, i ∈ t.keys ↔ t._image_paths.enabled[i]? = some false := by
  unfold consistent
  constructor
  · intro h
    refine ⟨h.nodup_iff.2 (PathCollection.candidates_nodup _ _), fun i => ?_⟩
    rw [h.mem_iff, PathCollection.mem_candidates]
  · rintro ⟨hn, hm⟩
    refine (List.perm_ext_iff_of_nodup hn (PathCollection.candidates_nodup _ _)).2 fun i => ?_
    rw [hm, PathCollection.mem_candidates]

/-- The keys left by `erase`. -/
theorem erase_keys (m : List (Nat × Image)) (j : Nat) :
    (erase m j).map Prod.fst = (m.map Prod.fst).filter (fun k => k != j) := by
  induction m with
  | nil => rfl
  | cons e es ih =>
    simp only [erase, List.filter_cons, List.map_cons] at ih ⊢
    by_cases h : e.1 = j
    · simp [h, ih]
    · simp [h, ih]

/-- Erasing a key of a map with distinct keys removes one entry. -/
theorem erase_length {m : List (Nat × Image)} {j : Nat} (hn : (m.map Prod.fst).Nodup)
    (hj : j ∈ m.map Prod.fst) : (erase m j).length + 1 = m.length := by
  have h1 : (erase m j).length = ((erase m j).map Prod.fst).length := by simp
  rw [h1, erase_keys, ← hn.erase_eq_filter, List.length_erase_of_mem hj]
  have : 0 < (m.map Prod.fst).length := List.length_pos_of_mem hj
  simp only [List.length_map] at this ⊢
  omega

/-- Emplacing under a fresh key appends the entry. -/
theorem emplace_fresh {m : List (Nat × Image)} {j : Nat} (image : Image)
    (hj : j ∉ m.map Prod.fst) : emplace m j image = m ++ [(j, image)] := by
  have : m.any (fun e => e.1 == j) = false := by
    rw [Bool.eq_false_iff]
    intro h
    simp only [List.any_eq_true, beq_iff_eq] at h
    obtain ⟨e, he, rfl⟩ := h
    exact hj (List.mem_map_of_mem _ he)
  simp [emplace, this]

/-- A successful still load on a consistent theme. -/
theorem load_image_internal_ok {t : Theme} (pick : Nat) {image : Image}
    (hc : t.consistent) (he : t._image_paths.enabled_count ≠ 0) (hv : image.valid = true) :
    ∃ t1, load_image_internal t pick image = some t1 ∧ t1.consistent ∧
      t1._images.length = t._images.length + 1 ∧
      t1._image_paths.enabled_count + 1 = t._image_paths.enabled_count ∧
      t1._target_load = t._target_load ∧ t1._animation_images = t._animation_images ∧
      t1._animation_paths = t._animation_paths := by
  obtain ⟨i, hi⟩ := PathCollection.enabled_index_of_count he
  obtain ⟨j, hj⟩ := PathCollection.next_index_defined pick hi
  have hjt := PathCollection.next_index_some hj
  obtain ⟨hlt, -⟩ := List.getElem?_eq_some.1 hjt
  obtain ⟨hn, hm⟩ := (consistent_iff t).1 hc
  have hfresh : j ∉ t._images.map Prod.fst := by
    intro h
    have := (hm j).1 h
    rw [hjt] at this; cases this
  have hrun : load_image_internal t pick image = some
      { t with
        trace := t.trace ++ [Work.load_image]
        _image_paths := t._image_paths.set_enabled j false
        _images := emplace t._images j image } := by
    simp only [load_image_internal, hj, hv, if_true]
  refine ⟨_, hrun, ?_, ?_, ?_, rfl, rfl, rfl⟩
  · rw [consistent_iff]
    simp only [keys, emplace_fresh image hfresh, List.map_append, List.map_cons, List.map_nil]
    refine ⟨?_, fun k => ?_⟩
    · rw [List.nodup_append]
      refine ⟨hn, List.nodup_singleton _, ?_⟩
      intro a ha hb
      rw [List.mem_singleton] at hb
      exact hfresh (hb ▸ ha)
    · rw [PathCollection.set_enabled_get false k hlt]
      by_cases hjk : j = k
      · subst hjk; simp
      · have := hm k
        simp only [keys] at this
        simp [hjk, this, Ne.symm hjk]
  · simp [emplace_fresh image hfresh]
  · exact PathCollection.enabled_count_disable hjt

/-- A still unload on a consistent theme that holds a still. -/
theorem unload_image_internal_ok {t : Theme} (pick : Nat)
    (hc : t.consistent) (he : t._images ≠ []) :
    ∃ t1, unload_image_internal t pick = some t1 ∧ t1.consistent ∧
      t1._images.length + 1 = t._images.length ∧
      t1._image_paths.enabled_count = t._image_paths.enabled_count + 1 ∧
      t1._target_load = t._target_load ∧ t1._animation_images = t._animation_images ∧
      t1._animation_paths = t._animation_paths := by
  obtain ⟨hn, hm⟩ := (consistent_iff t).1 hc
  obtain ⟨e, es, hes⟩ := List.exists_cons_of_ne_nil he
  have hi : t._image_paths.enabled[e.1]? = some false :=
    (hm e.1).1 (by simp [keys, hes])
  obtain ⟨j, hj⟩ := PathCollection.next_index_defined pick hi
  have hjt := PathCollection.next_index_some hj
  obtain ⟨hlt, -⟩ := List.getElem?_eq_some.1 hjt
  have hjk : j ∈ t._images.map Prod.fst := (hm j).2 hjt
  have hrun : unload_image_internal t pick = some
      { t with
        _images := erase t._images j
        _image_paths := t._image_paths.set_enabled j true
        trace := t.trace ++ [Work.unload_image] } := by
    simp only [unload_image_internal, hj]
  refine ⟨_, hrun, ?_, ?_, ?_, rfl, rfl, rfl⟩
  · rw [consistent_iff]
    simp only [keys, erase_keys]
    refine ⟨hn.filter _, fun k => ?_⟩
    rw [PathCollection.set_enabled_get true k hlt]
    have := hm k
    simp only [keys] at this
    by_cases h : j = k
    · subst h; simp
    · simp [h, this, Ne.symm h]
  · exact erase_length hn hjk
  · exact PathCollection.enabled_count_enable hjt

/-- The animation part of `perform_load` leaves the stills side alone. -/
theorem perform_load_animation_stills (t : Theme) (o : Outcome) :
    (perform_load_animation t o)._images = t._images ∧
    (perform_load_animation t o)._image_paths = t._image_paths ∧
    (perform_load_animation t o)._target_load = t._target_load ∧
    (perform_load_animation t o)._animation_paths = t._animation_paths := by
  unfold perform_load_animation load_animation_internal unload_animation_internal
  split_ifs <;> exact ⟨rfl, rfl, rfl, rfl⟩

/-- When the animation decode succeeds, the animation part of `perform_load`
settles the animation half of `all_loaded()`. -/
theorem perform_load_animation_settles (t : Theme) (o : Outcome)
    (hf : o.frames.isEmpty = false) :
    (perform_load_animation t o).animation_settled = true := by
  unfold perform_load_animation load_animation_internal unload_animation_internal
    animation_settled
  by_cases hp : t._animation_paths.empty = true
  · simp [hp]
  · by_cases hT : t._target_load = 0
    · by_cases ha : t._animation_images.isEmpty = true
      · simp [hp, hT, ha]
      · simp [hp, hT, ha]
    · by_cases ha : t._animation_images.isEmpty = true
      · simp [hp, hT, ha, hf]
      · simp [hp, hT, ha]

/-- One `perform_load()` with successful decodes on a consistent theme whose
target does not exceed the paths available: the call is defined, keeps the
hypotheses, settles the animation and moves `loaded()` one step towards the
target. -/
theorem perform_load_step {t : Theme} {o : Outcome} (hc : t.consistent)
    (hb : t._target_load ≤ t._image_paths.enabled_count + t._images.length)
    (hd : o.decodes = true) :
    ∃ t1, perform_load t o = some t1 ∧ t1.consistent ∧
      t1._target_load = t._target_load ∧
      t1._target_load ≤ t1._image_paths.enabled_count + t1._images.length ∧
      t1.animation_settled = true ∧
      Nat.dist t1.loaded t1._target_load = Nat.dist t.loaded t._target_load - 1 := by
  simp only [Outcome.decodes, Bool.and_eq_true, Bool.not_eq_true'] at hd
  obtain ⟨hv, hf⟩ := hd
  obtain ⟨h1, h2, h3, h4⟩ := perform_load_animation_stills t o
  have hs := perform_load_animation_settles t o hf
  have hc0 : (perform_load_animation t o).consistent := by
    unfold consistent keys at hc ⊢
    rw [h1, h2]; exact hc
  unfold perform_load
  simp only [h1, h2, h3, loaded, Nat.dist]
  by_cases hlt : t._images.length < t._target_load
  · have he : t._image_paths.enabled_count ≠ 0 := by omega
    obtain ⟨t1, hr, hc1, hn1, he1, hT1, ha1, hp1⟩ :=
      load_image_internal_ok o.load_pick hc0 (by rw [h2]; exact he) hv
    rw [h1] at hn1
    rw [h2] at he1
    rw [h3] at hT1
    refine ⟨t1, by simp [hlt, he, hr], hc1, hT1, by omega, ?_, by omega⟩
    unfold animation_settled at hs ⊢
    rw [ha1, hp1, hT1, ← h3]; exact hs
  · by_cases hgt : t._images.length > t._target_load
    · have hne : (perform_load_animation t o)._images ≠ [] := by
        rw [h1]; intro h; rw [h] at hgt; simp at hgt
      obtain ⟨t1, hr, hc1, hn1, he1, hT1, ha1, hp1⟩ :=
        unload_image_internal_ok o.unload_pick hc0 hne
      rw [h1] at hn1
      rw [h2] at he1
      rw [h3] at hT1
      refine ⟨t1, by simp [hlt, hgt, hr], hc1, hT1, by omega, ?_, by omega⟩
      unfold animation_settled at hs ⊢
      rw [ha1, hp1, hT1, ← h3]; exact hs
    · refine ⟨perform_load_animation t o, by simp [hlt, hgt], hc0, h3, ?_, hs, ?_⟩
      · rw [h1, h2, h3]; exact hb
      · rw [h1, h3]; omega

/-- A settled theme at its target is `all_loaded()`. -/
theorem all_loaded_of_settled {t : Theme} (hs : t.animation_settled = true)
    (hd : Nat.dist t.loaded t._target_load = 0) : t.all_loaded = true := by
  unfold animation_settled at hs
  unfold all_loaded
  simp only [loaded, Nat.dist] at hd
  have : t._images.length = t._target_load := by omega
  simp only [this, beq_self_eq_true, Bool.true_or, Bool.true_and]
  exact hs

/-- On a theme that is `all_loaded()` the loop of `perform_all_loads` makes no
call. -/
theorem perform_all_loads_done {t : Theme} (os : List Outcome) (h : t.all_loaded = true) :
    perform_all_loads t os = some t := by
  cases os <;> simp [perform_all_loads, h]

/-- From a settled theme, `all_loaded()` is reached within `d` calls when
`loaded()` is within `d` of the target. -/
theorem perform_all_loads_settled (d : Nat) :
    ∀ (t : Theme) (os : List Outcome), t.consistent →
      t._target_load ≤ t._image_paths.enabled_count + t._images.length →
      t.animation_settled = true → Nat.dist t.loaded t._target_load ≤ d →
      (∀ o ∈ os, o.decodes = true) → d ≤ os.length →
      ∃ k t1, k ≤ d ∧ perform_loads t (os.take k) = some t1 ∧ t1.all_loaded = true ∧
        perform_all_loads t os = some t1 := by
  induction d with
  | zero =>
    intro t os _ _ hs hd _ _
    have hall := all_loaded_of_settled hs (by omega)
    exact ⟨0, t, le_refl _, by simp [perform_loads], hall, perform_all_loads_done os hall⟩
  | succ d ih =>
    intro t os hc hb hs hd hos hlen
    by_cases hall : t.all_loaded = true
    · exact ⟨0, t, by omega, by simp [perform_loads], hall, perform_all_loads_done os hall⟩
    · cases os with
      | nil => simp at hlen
      | cons o os1 =>
        obtain ⟨t1, hr, hc1, hT1, hb1, hs1, hd1⟩ :=
          perform_load_step hc hb (hos o (List.mem_cons_self _ _))
        obtain ⟨k, t2, hk, hrun, hall2, hloop⟩ := ih t1 os1 hc1 hb1 hs1 (by omega)
          (fun x hx => hos x (List.mem_cons_of_mem _ hx))
          (by simp only [List.length_cons] at hlen; omega)
        refine ⟨k + 1, t2, by omega, ?_, hall2, ?_⟩
        · simp [perform_loads, hr, hrun]
        · simp [perform_all_loads, hall, hr, hloop]

/-- C10: on a theme whose stills-cache keys are exactly its disabled image
indices and whose `enabled_count()` is at least `target_load`, when every
decode succeeds, at most `|loaded() - target_load| + 1` calls of
`perform_load()` reach `all_loaded()`, and `perform_all_loads()` returns that
state. -/
theorem perform_all_loads_terminates (t : Theme) (os : List Outcome)
    (hc : t.consistent) (he : t._target_load ≤ t._image_paths.enabled_count)
    (hos : ∀ o ∈ os, o.decodes = true)
    (hlen : Nat.dist t.loaded t._target_load + 1 ≤ os.length) :
    ∃ k t1, k ≤ Nat.dist t.loaded t._target_load + 1 ∧
      perform_loads t (os.take k) = some t1 ∧ t1.all_loaded = true ∧
      perform_all_loads t os = some t1 := by
  by_cases hall : t.all_loaded = true
  · exact ⟨0, t, by omega, by simp [perform_loads], hall, perform_all_loads_done os hall⟩
  · cases os with
    | nil => simp at hlen
    | cons o os1 =>
      obtain ⟨t1, hr, hc1, hT1, hb1, hs1, hd1⟩ :=
        perform_load_step hc (by omega) (hos o (List.mem_cons_self _ _))
      obtain ⟨k, t2, hk, hrun, hall2, hloop⟩ :=
        perform_all_loads_settled (Nat.dist t.loaded t._target_load) t1 os1 hc1 hb1 hs1
          (by omega) (fun x hx => hos x (List.mem_cons_of_mem _ hx))
          (by simp only [List.length_cons] at hlen; omega)
      refine ⟨k + 1, t2, by omega, ?_, hall2, ?_⟩
      · simp [perform_loads, hr, hrun]
      · simp [perform_all_loads, hall, hr, hloop]

/-- Witness of `perform_all_loads_terminates` on `gallery_theme`: three image
paths, target 2, nothing loaded, three successful outcomes at hand. -/
theorem perform_all_loads_terminates_witness :
    ∃ k t1, k ≤ Nat.dist gallery_theme.loaded gallery_theme._target_load + 1 ∧
      perform_loads gallery_theme ([good_outcome, good_outcome, good_outcome].take k) = some t1 ∧
      t1.all_loaded = true ∧
      perform_all_loads gallery_theme [good_outcome, good_outcome, good_outcome] = some t1 :=
  perform_all_loads_terminates gallery_theme [good_outcome, good_outcome, good_outcome]
    (by decide) (by decide) (by decide) (by decide)

end Theme

/-! ## The cache budget -/

namespace ThemeBank

/-- A list that holds `q` at three distinct positions and 0 elsewhere sums to
`3 * q`. -/
theorem sum_three_slots (T : List Nat) (a b c q : Nat)
    (ha : a < T.length) (hb : b < T.length) (hc : c < T.length)
    (hab : a ≠ b) (hac : a ≠ c) (hbc : b ≠ c)
    (hT : ∀ i : Nat, i < T.length → T[i]? = some (if i = a ∨ i = b ∨ i = c then q else 0)) :
    T.sum = 3 * q := by
  have h1 : T.sum = ∑ i : Fin T.length, T.get i := by
    rw [← List.sum_ofFn, List.ofFn_get]
  have h2 : ∀ i : Fin T.length, T.get i =
      (fun k : Nat => (if k = a then q else 0) + (if k = b then q else 0) +
        (if k = c then q else 0)) i := by
    intro i
    have := hT i i.2
    rw [List.getElem?_eq_getElem i.2] at this
    simp only [Option.some.injEq] at this
    simp only [List.get_eq_getElem, this]
    by_cases h1 : (i : Nat) = a
    · simp [h1, hab, hac]
    · by_cases h2 : (i : Nat) = b
      · simp [h2, hbc, Ne.symm hab]
      · by_cases h3 : (i : Nat) = c
        · simp [h3, Ne.symm hac, Ne.symm hbc]
        · simp [h1, h2, h3]
  rw [h1, Finset.sum_congr rfl (fun i _ => h2 i), Fin.sum_univ_eq_sum_range
    (fun k : Nat => (if k = a then q else 0) + (if k = b then q else 0) +
        (if k = c then q else 0)) T.length]
  simp only [Finset.sum_add_distrib, Finset.sum_ite_eq', Finset.mem_range, ha, hb, hc, if_true]
  omega

/-- The target loads of a bank in one of the three shapes fit the budget. -/
theorem budget_shape_sum {bank : ThemeBank} (h : bank.budget_shape) :
    bank.target_sum ≤ bank._image_cache_size := by
  have hsum : bank.target_sum = bank.targets.sum := rfl
  rw [hsum]
  rcases h with h | h | ⟨-, ha, hb, hc, hab, hac, hbc, hT⟩
  · rw [h]; simp only [List.sum_cons, List.sum_nil]; omega
  · rw [h]; simp only [List.sum_cons, List.sum_nil]; omega
  · rw [sum_three_slots _ _ _ _ _ ha hb hc hab hac hbc hT]; omega

end ThemeBank

namespace Theme

/-- `load_image_internal` keeps the target load. -/
theorem load_image_internal_target {t t1 : Theme} {pick : Nat} {image : Image}
    (h : load_image_internal t pick image = some t1) : t1._target_load = t._target_load := by
  unfold load_image_internal at h
  split at h
  · cases h
  · simp only at h
    split at h <;> (cases h; rfl)

/-- `unload_image_internal` keeps the target load. -/
theorem unload_image_internal_target {t t1 : Theme} {pick : Nat}
    (h : unload_image_internal t pick = some t1) : t1._target_load = t._target_load := by
  unfold unload_image_internal at h
  split at h
  · cases h
  · cases h; rfl

/-- `perform_load` keeps the target load. -/
theorem perform_load_target {t t1 : Theme} {o : Outcome}
    (h : perform_load t o = some t1) : t1._target_load = t._target_load := by
  have h3 := (perform_load_animation_stills t o).2.2.1
  unfold perform_load at h
  simp only at h
  split at h
  · rw [load_image_internal_target h, h3]
  · split at h
    · rw [unload_image_internal_target h, h3]
    · cases h; exact h3

/-- `perform_swap` keeps the target load. -/
theorem perform_swap_target {t t1 : Theme} {o : Outcome}
    (h : perform_swap t o = some t1) : t1._target_load = t._target_load := by
  unfold perform_swap at h
  split at h
  · cases h
    unfold load_animation_internal
    split <;> rfl
  · split at h
    · split at h
      · cases h
      · next t2 h2 => rw [load_image_internal_target h, unload_image_internal_target h2]
    · cases h; rfl

/-- `perform_all_loads` keeps the target load. -/
theorem perform_all_loads_target (os : List Outcome) :
    ∀ t t1 : Theme, perform_all_loads t os = some t1 → t1._target_load = t._target_load := by
  induction os with
  | nil =>
    intro t t1 h
    unfold perform_all_loads at h
    split at h
    · cases h; rfl
    · cases h
  | cons o os ih =>
    intro t t1 h
    unfold perform_all_loads at h
    split at h
    · cases h; rfl
    · simp only [Option.bind_eq_some] at h
      obtain ⟨t2, h2, h⟩ := h
      rw [ih t2 t1 h, perform_load_target h2]

end Theme

namespace ThemeBank

/-- An operation that keeps the target load keeps the list of target loads. -/
theorem with_theme_targets {ts ts1 : List Theme} {i : Nat} {f : Theme → Option Theme}
    (hf : ∀ t t1, f t = some t1 → t1._target_load = t._target_load)
    (h : with_theme ts i f = some ts1) :
    ts1.map (fun t => t._target_load) = ts.map (fun t => t._target_load) := by
  unfold with_theme at h
  split at h
  · cases h
  · next t ht =>
    simp only [Option.map_eq_some'] at h
    obtain ⟨t1, h1, rfl⟩ := h
    obtain ⟨hlt, hget⟩ := List.getElem?_eq_some.1 ht
    rw [List.map_set, hf t t1 h1, ← hget]
    apply List.ext_getElem?
    intro k
    simp only [List.getElem?_set, List.length_map, hlt, if_true, List.getElem?_map]
    split
    · next hk => subst hk; simp [List.getElem?_eq_getElem hlt]
    · rfl

/-- `set_target_load` at an index overwrites that entry of the list of target
loads. -/
theorem with_theme_set_target {ts ts1 : List Theme} {i v : Nat}
    (h : with_theme ts i (fun t => some (t.set_target_load v)) = some ts1) :
    i < ts.length ∧
      ts1.map (fun t => t._target_load) = (ts.map (fun t => t._target_load)).set i v := by
  unfold with_theme at h
  split at h
  · cases h
  · next t ht =>
    simp only [Option.map_some', Option.some.injEq] at h
    subst h
    exact ⟨(List.getElem?_eq_some.1 ht).1, by rw [List.map_set]; rfl⟩

/-- The shape of the target loads only reads the target loads, the budget and
the slots `_a`, `_b`, `_next`. -/
theorem budget_shape_congr {bank bank1 : ThemeBank} (h : bank.budget_shape)
    (hT : bank1.targets = bank.targets)
    (hc : bank1._image_cache_size = bank._image_cache_size) (ha : bank1._a = bank._a)
    (hb : bank1._b = bank._b) (hn : bank1._next = bank._next) : bank1.budget_shape := by
  unfold budget_shape at h ⊢
  rw [hT, hc, ha, hb, hn]
  exact h

/-- A tick of maintenance keeps target loads, budget and slots. -/
theorem maintenance_targets {bank bank1 : ThemeBank} {o : Tick}
    (h : maintenance bank o = some bank1) :
    bank1.targets = bank.targets ∧ bank1._image_cache_size = bank._image_cache_size ∧
      bank1._a = bank._a ∧ bank1._b = bank._b ∧ bank1._next = bank._next := by
  unfold maintenance at h
  simp only [Option.bind_eq_some] at h
  obtain ⟨bank2, h1, h2⟩ := h
  have hmid : bank2.targets = bank.targets ∧ bank2._image_cache_size = bank._image_cache_size ∧
      bank2._a = bank._a ∧ bank2._b = bank._b ∧ bank2._next = bank._next := by
    split at h1
    · simp only [Option.bind_eq_some] at h1
      obtain ⟨ts1, e1, ts2, e2, h1⟩ := h1
      cases h1
      refine ⟨?_, rfl, rfl, rfl, rfl⟩
      have r1 := with_theme_targets (fun _ _ => Theme.perform_swap_target) e1
      have r2 := with_theme_targets (fun _ _ => Theme.perform_swap_target) e2
      simp only [targets]
      rw [r2, r1]
    · cases h1
      exact ⟨rfl, rfl, rfl, rfl, rfl⟩
  obtain ⟨m1, m2, m3, m4, m5⟩ := hmid
  rw [← m1, ← m2, ← m3, ← m4, ← m5]
  split at h2
  · simp only [Option.bind_eq_some] at h2
    obtain ⟨ts, e, h2⟩ := h2
    cases h2
    refine ⟨?_, rfl, rfl, rfl, rfl⟩
    simp only [targets]
    rw [with_theme_targets (fun _ _ => Theme.perform_swap_target) e]
  · split at h2
    · simp only [Option.bind_eq_some] at h2
      obtain ⟨ts1, e1, ts2, e2, h2⟩ := h2
      cases h2
      refine ⟨?_, rfl, rfl, rfl, rfl⟩
      simp only [targets]
      rw [with_theme_targets (fun _ _ => Theme.perform_load_target) e2,
        with_theme_targets (fun _ _ => Theme.perform_load_target) e1]
    · cases h2
      exact ⟨rfl, rfl, rfl, rfl, rfl⟩

/-- `async_update` keeps the shape of the target loads. -/
theorem async_update_shape {bank bank1 : ThemeBank} {o : Tick} (hs : bank.budget_shape)
    (h : async_update bank o = some bank1) : bank1.budget_shape := by
  unfold async_update at h
  split at h
  · cases h
    exact budget_shape_congr hs rfl rfl rfl rfl rfl
  · obtain ⟨m1, m2, m3, m4, m5⟩ := maintenance_targets h
    exact budget_shape_congr hs m1 m2 m3 m4 m5

/-- `change_themes` keeps the shape of the target loads, the draws obeying the
contract of `random_excluding(size, _prev)`. -/
theorem change_themes_shape {c : Nat} {bank bank1 : ThemeBank} {draws : List Nat} {r : Bool}
    (hs : bank.budget_shape)
    (hd : ∀ d ∈ draws, d < bank._themes.length ∧ d ≠ bank._a)
    (h : change_themes c bank draws = some (bank1, r)) : bank1.budget_shape := by
  have hlen : bank.targets.length = bank._themes.length := by simp [targets]
  unfold change_themes at h
  simp only at h
  split at h
  · next h3 =>
    cases h
    rcases hs with hs | hs | hs
    · exact Or.inl hs
    · exact Or.inr (Or.inl hs)
    · omega
  · split at h
    · next h3 =>
      cases h
      rcases hs with hs | hs | hs
      · exact Or.inl hs
      · exact Or.inr (Or.inl hs)
      · omega
    · next h3 h3e =>
      split at h
      · cases h
      · split at h
        · cases h; exact budget_shape_congr hs rfl rfl rfl rfl rfl
        · split at h
          · cases h
          · split at h
            · cases h; exact budget_shape_congr hs rfl rfl rfl rfl rfl
            · split at h
              · cases h
              · next nx hnx =>
                simp only [Option.bind_eq_some] at h
                obtain ⟨ts1, e1, ts2, e2, h⟩ := h
                cases h
                obtain ⟨hmem, hrej⟩ := do_while_some hnx
                have hrej2 : nx ≠ bank._b ∧ nx ≠ bank._next := by simpa using hrej
                obtain ⟨hnlt, hna⟩ := hd nx hmem
                obtain ⟨-, r1⟩ := with_theme_set_target e1
                obtain ⟨-, r2⟩ := with_theme_set_target e2
                rcases hs with hs | hs | ⟨h4, ha, hb, hn, hab, han, hbn, hT⟩
                · rw [hs] at hlen; simp at hlen; omega
                · rw [hs] at hlen; simp at hlen; omega
                · refine Or.inr (Or.inr ?_)
                  simp only [targets] at hlen ha hb hn hT h4 ⊢
                  rw [r2, r1]
                  simp only [List.length_set]
                  refine ⟨h4, hb, hn, by rw [List.length_map]; exact hnlt, hbn, hrej2.1.symm,
                    hrej2.2.symm, fun i hi => ?_⟩
                  rw [List.getElem?_set, List.getElem?_set, hT i hi]
                  have ha2 : bank._a < bank._themes.length := by
                    rw [List.length_map] at ha; exact ha
                  simp only [List.length_set, List.length_map, hnlt, ha2, if_true]
                  by_cases h1 : nx = i
                  · simp [h1]
                  · by_cases h2 : bank._a = i
                    · subst h2
                      simp [h1, hab, han, hna.symm]
                    · have h1s : ¬ i = nx := fun e => h1 e.symm
                      have h2s : ¬ i = bank._a := fun e => h2 e.symm
                      simp [h1, h2, h1s, h2s]

/-- The constructor starts from at least two themes, as many as supplied when
two or more are, each with target load 0. -/
theorem initial_themes_spec (themes : List ThemeProto) :
    ((initial_themes themes).length = if themes.length < 2 then 2 else themes.length) ∧
      ∀ t ∈ initial_themes themes, t._target_load = 0 := by
  match themes with
  | [] =>
    refine ⟨by simp [initial_themes], fun t ht => ?_⟩
    simp [initial_themes, Theme.ofProto, Theme.copy] at ht
    subst ht
    rfl
  | [p] =>
    refine ⟨by simp [initial_themes], fun t ht => ?_⟩
    simp [initial_themes, Theme.ofProto, Theme.copy] at ht
    subst ht
    rfl
  | p :: q :: rest =>
    refine ⟨by simp [initial_themes]; split <;> omega, fun t ht => ?_⟩
    simp [initial_themes] at ht
    rcases ht with rfl | rfl | ⟨x, -, rfl⟩ <;> rfl

/-- The constructor establishes the shape of the target loads, the random
collaborators obeying their contracts. -/
theorem construct_shape {c : Nat} {themes : List ThemeProto} {cache : Nat} {o : Boot}
    {bank : ThemeBank} (hv : 3 ≤ themes.length → o.valid themes.length)
    (h : construct c themes cache o = some bank) : bank.budget_shape := by
  unfold construct at h
  obtain ⟨hl, hz⟩ := initial_themes_spec themes
  generalize initial_themes themes = ts at h hl hz
  simp only at h
  have hz0 : ∀ i : Nat, i < ts.length → (ts.map (fun t => t._target_load))[i]? = some 0 := by
    intro i hi
    rw [List.getElem?_map, List.getElem?_eq_getElem hi]
    simp [hz _ (List.getElem_mem hi)]
  split at h
  · next h2 =>
    simp only [Option.bind_eq_some] at h
    obtain ⟨ts1, e1, ts2, e2, ts3, e3, ts4, e4, h⟩ := h
    cases h
    obtain ⟨-, r1⟩ := with_theme_set_target e1
    obtain ⟨-, r2⟩ := with_theme_set_target e2
    have r3 := with_theme_targets (fun t t1 => Theme.perform_all_loads_target _ t t1) e3
    have r4 := with_theme_targets (fun t t1 => Theme.perform_all_loads_target _ t t1) e4
    refine Or.inl ?_
    simp only [targets]
    rw [r4, r3, r2, r1]
    match ts, h2 with
    | [x, y], _ => rfl
  · next h2 =>
    have h3 : 3 ≤ themes.length := by
      split at hl <;> omega
    have hn : ts.length = themes.length := by
      split at hl <;> omega
    obtain ⟨hoa, ⟨hob, hoab⟩, hon⟩ := hv h3
    simp only [Option.bind_eq_some] at h
    obtain ⟨nx, hnx, ts1, e1, ts2, e2, ts3, e3, ts4, e4, ts5, e5, h⟩ := h
    obtain ⟨hmem, hrej⟩ := do_while_some hnx
    have hnb : nx ≠ o.b := by simpa using hrej
    obtain ⟨hnlt, hna⟩ := hon nx hmem
    obtain ⟨-, r1⟩ := with_theme_set_target e1
    obtain ⟨-, r2⟩ := with_theme_set_target e2
    obtain ⟨-, r3⟩ := with_theme_set_target e3
    have r4 := with_theme_targets (fun t t1 => Theme.perform_all_loads_target _ t t1) e4
    have r5 := with_theme_targets (fun t t1 => Theme.perform_all_loads_target _ t t1) e5
    have hT5 : ts5.map (fun t => t._target_load) =
        (((ts.map (fun t => t._target_load)).set o.a (cache / 3)).set o.b (cache / 3)).set nx
          (cache / 3) := by
      rw [r5, r4, r3, r2, r1]
    have hlen5 : ts5.length = ts.length := by
      have := congrArg List.length hT5
      simpa using this
    have hpt : ∀ i : Nat, i < ts.length → (ts5.map (fun t => t._target_load))[i]? =
        some (if i = o.a ∨ i = o.b ∨ i = nx then cache / 3 else 0) := by
      intro i hi
      rw [hT5, List.getElem?_set, List.getElem?_set, List.getElem?_set, hz0 i hi]
      have e1 : o.a < ts.length := by omega
      have e2 : o.b < ts.length := by omega
      have e3 : nx < ts.length := by omega
      simp only [List.length_set, List.length_map, e1, e2, e3, if_true]
      by_cases c1 : nx = i
      · simp [c1]
      · by_cases c2 : o.b = i
        · simp [c1, c2]
        · by_cases c3 : o.a = i
          · simp [c1, c2, c3]
          · have d1 : ¬ i = nx := fun e => c1 e.symm
            have d2 : ¬ i = o.b := fun e => c2 e.symm
            have d3 : ¬ i = o.a := fun e => c3 e.symm
            simp [c1, c2, c3, d1, d2, d3]
    split at h
    · next hlen3 =>
      simp only [Option.bind_eq_some] at h
      obtain ⟨ts6, e6, h⟩ := h
      cases h
      have r6 := with_theme_targets (fun t t1 => Theme.perform_all_loads_target _ t t1) e6
      refine Or.inr (Or.inl ?_)
      simp only [targets]
      rw [r6]
      have p0 := hpt 0 (by omega)
      have p1 := hpt 1 (by omega)
      have p2 := hpt 2 (by omega)
      have c0 : (0 = o.a ∨ 0 = o.b ∨ 0 = nx) := by omega
      have c1 : (1 = o.a ∨ 1 = o.b ∨ 1 = nx) := by omega
      have c2 : (2 = o.a ∨ 2 = o.b ∨ 2 = nx) := by omega
      rw [if_pos c0] at p0
      rw [if_pos c1] at p1
      rw [if_pos c2] at p2
      have hl3 : (ts5.map (fun t => t._target_load)).length = 3 := by simpa using hlen3
      apply List.ext_getElem?
      intro k
      match k with
      | 0 => rw [p0]; rfl
      | 1 => rw [p1]; rfl
      | 2 => rw [p2]; rfl
      | k + 3 =>
        rw [List.getElem?_eq_none (by omega)]
        rfl
    · next hlen3 =>
      cases h
      refine Or.inr (Or.inr ?_)
      simp only [targets, List.length_map, hlen5]
      exact ⟨by omega, by omega, by omega, by omega, fun e => hoab e.symm, fun e => hna e.symm,
        fun e => hnb e.symm, hpt⟩

/-- C8: in every bank state reachable from construction by `change_themes()`
and `async_update()` calls, the sum of `target_load` over all themes is at
most `image_cache_size`. -/
theorem target_sum_le_budget (c : Nat) (bank : ThemeBank) (h : Reachable c bank) :
    bank.target_sum ≤ bank._image_cache_size := by
  have hs : bank.budget_shape := by
    induction h with
    | boot hv hc => exact construct_shape hv hc
    | switch _ hd hc ih => exact change_themes_shape ih hd hc
    | tick _ hu ih => exact async_update_shape ih hu
  exact budget_shape_sum hs

/-- Witness of `target_sum_le_budget`: the bank built from five themes, ticked
twice and switched once. -/
theorem target_sum_le_budget_witness :
    bank_rotated.target_sum ≤ bank_rotated._image_cache_size :=
  target_sum_le_budget 1 bank_rotated
    (@Reachable.switch 1 { bank_booted with _cooldown := 0, _updates := 1 } bank_rotated
      [2, 4] true
      (@Reachable.tick 1 { bank_booted with _cooldown := 0 }
        { bank_booted with _cooldown := 0, _updates := 1 } good_tick
        (@Reachable.tick 1 bank_booted { bank_booted with _cooldown := 0 } good_tick
          (@Reachable.boot 1 five_protos 9 boot_outcome bank_booted
            (fun _ => ⟨by decide, ⟨by decide, by decide⟩, by decide⟩) (by decide))
          (by decide))
        (by decide))
      (by decide) (by decide))

end ThemeBank

/-! ## Reachable theme states -/

namespace PathCollection

/-- The number of candidates for a flag is the number of entries with that
flag. -/
theorem candidates_length (c : PathCollection) (flag : Bool) :
    (c.candidates flag).length = c.enabled.count flag := by
  obtain ⟨l⟩ := c
  simp only [candidates]
  induction l with
  | nil => simp
  | cons x xs ih =>
    rw [List.length_cons, List.range_succ_eq_map, List.filter_cons, List.filter_map,
      List.count_cons]
    have hfun : ((fun i => (x :: xs)[i]? == some flag) ∘ Nat.succ) =
        (fun i => xs[i]? == some flag) := by
      funext i
      simp
    rw [hfun]
    by_cases hx : x = flag
    · simp [hx, ih]
    · have hx2 : ¬ flag = x := fun e => hx e.symm
      simp [hx, hx2, ih]

/-- Every entry is enabled or disabled. -/
theorem count_true_add_false (l : List Bool) : l.count true + l.count false = l.length := by
  induction l with
  | nil => rfl
  | cons x xs ih =>
    cases x <;> simp [List.count_cons] <;> omega

/-- `next_index(flag)` is undefined exactly when no index carries the flag. -/
theorem next_index_none {c : PathCollection} {flag : Bool} {pick : Nat} :
    c.next_index flag pick = none ↔ ∀ i : Nat, c.enabled[i]? ≠ some flag := by
  constructor
  · intro h i hi
    obtain ⟨j, hj⟩ := next_index_defined pick hi
    rw [h] at hj; cases hj
  · intro h
    have hnil : c.candidates flag = [] := by
      apply List.eq_nil_iff_forall_not_mem.2
      intro i hi
      exact h i ((mem_candidates c flag i).1 hi)
    simp [next_index, hnil]

end PathCollection

namespace Theme

/-- A failed decode in `load_image_internal` changes nothing but the log. -/
theorem load_image_internal_empty {t : Theme} (pick : Nat) {image : Image}
    (he : t._image_paths.enabled_count ≠ 0) (hv : image.valid = false) :
    load_image_internal t pick image = some { t with trace := t.trace ++ [Work.load_image] } := by
  obtain ⟨i, hi⟩ := PathCollection.enabled_index_of_count he
  obtain ⟨j, hj⟩ := PathCollection.next_index_defined pick hi
  simp [load_image_internal, hj, hv]

/-- A still load on a consistent theme with an enabled path, whatever the
decode returns: the call is defined, keeps consistency and adds one still
exactly when the decode succeeds. -/
theorem load_image_internal_any {t : Theme} (pick : Nat) (image : Image)
    (hc : t.consistent) (he : t._image_paths.enabled_count ≠ 0) :
    ∃ t1, load_image_internal t pick image = some t1 ∧ t1.consistent ∧
      t1._target_load = t._target_load ∧
      t1._images.length = t._images.length + (if image.valid then 1 else 0) := by
  cases hv : image.valid
  · refine ⟨_, load_image_internal_empty pick he hv, ?_, rfl, by simp⟩
    unfold consistent keys at hc ⊢
    exact hc
  · obtain ⟨t1, hr, hc1, hn1, -, hT1, -, -⟩ := load_image_internal_ok pick hc he hv
    exact ⟨t1, hr, hc1, hT1, by simpa using hn1⟩

/-- On a consistent theme `perform_load` is defined for every outcome, keeps
consistency and the target load, and leaves `loaded()` at most at the larger of
its previous value and the target load. -/
theorem perform_load_consistent {t : Theme} (o : Outcome) (hc : t.consistent) :
    ∃ t1, perform_load t o = some t1 ∧ t1.consistent ∧
      t1._target_load = t._target_load ∧ t1.loaded ≤ max t.loaded t._target_load := by
  obtain ⟨h1, h2, h3, h4⟩ := perform_load_animation_stills t o
  have hc0 : (perform_load_animation t o).consistent := by
    unfold consistent keys at hc ⊢
    rw [h1, h2]; exact hc
  unfold perform_load
  simp only [h1, h2, h3, loaded]
  by_cases hlt : t._images.length < t._target_load ∧ t._image_paths.enabled_count ≠ 0
  · obtain ⟨t1, hr, hc1, hT1, hn1⟩ :=
      load_image_internal_any o.load_pick o.image hc0 (by rw [h2]; exact hlt.2)
    rw [h1] at hn1
    rw [h3] at hT1
    refine ⟨t1, by simp [hlt.1, hlt.2, hr], hc1, hT1, ?_⟩
    rw [hn1]
    split <;> omega
  · have hlt2 : ¬ ((decide (t._images.length < t._target_load) &&
        t._image_paths.enabled_count != 0) = true) := by
      simpa using hlt
    rw [if_neg hlt2]
    by_cases hgt : t._images.length > t._target_load
    · have hne : (perform_load_animation t o)._images ≠ [] := by
        rw [h1]; intro h; rw [h] at hgt; simp at hgt
      obtain ⟨t1, hr, hc1, hn1, -, hT1, -, -⟩ :=
        unload_image_internal_ok o.unload_pick hc0 hne
      rw [h1] at hn1
      rw [h3] at hT1
      exact ⟨t1, by simp [hgt, hr], hc1, hT1, by omega⟩
    · exact ⟨perform_load_animation t o, by simp [hgt], hc0, h3, by rw [h1]; omega⟩

/-- On a consistent theme `perform_swap` is defined for every outcome and
keeps consistency and the target load.  The stills count is kept when the
animation is reloaded, when no still swap is attempted, and when the decode of
the swapped-in still succeeds; it drops by one when the still swap is attempted
and the decode fails. -/
theorem perform_swap_consistent {t : Theme} (o : Outcome) (hc : t.consistent) :
    ∃ t1, perform_swap t o = some t1 ∧ t1.consistent ∧
      t1._target_load = t._target_load ∧
      t1.loaded + (if (!(decide (t._animation_paths.size > 2) && o.chance) &&
          (decide (t._images.length > 2) && t._image_paths.enabled_count != 0) &&
          !o.image.valid) = true then 1 else 0) = t.loaded := by
  unfold perform_swap
  by_cases h1 : (decide (t._animation_paths.size > 2) && o.chance) = true
  · rw [if_pos h1]
    refine ⟨_, rfl, ?_, ?_, ?_⟩
    · unfold consistent keys load_animation_internal at *
      split <;> exact hc
    · unfold load_animation_internal
      split <;> rfl
    · simp only [h1, Bool.not_true, Bool.false_and, Bool.false_eq_true, if_false, loaded,
        load_animation_internal]
      split <;> rfl
  · rw [if_neg h1]
    by_cases h2 : (decide (t._images.length > 2) && t._image_paths.enabled_count != 0) = true
    · rw [if_pos h2]
      have hlen : t._images.length > 2 := by
        simp only [Bool.and_eq_true, decide_eq_true_eq] at h2
        exact h2.1
      have hne : t._images ≠ [] := by
        intro h; rw [h] at hlen; simp at hlen
      obtain ⟨t2, hr2, hc2, hn2, he2, hT2, -, -⟩ := unload_image_internal_ok o.unload_pick hc hne
      obtain ⟨t1, hr1, hc1, hT1, hn1⟩ :=
        load_image_internal_any o.load_pick o.image hc2 (by omega)
      refine ⟨t1, by simp only [hr2, hr1], hc1, by rw [hT1, hT2], ?_⟩
      simp only [loaded, hn1]
      have h1f : (decide (t._animation_paths.size > 2) && o.chance) = false := by
        simpa using h1
      rw [h1f, h2]
      cases hv : o.image.valid <;> simp <;> omega
    · rw [if_neg h2]
      refine ⟨t, rfl, hc, rfl, ?_⟩
      have h2f : (decide (t._images.length > 2) && t._image_paths.enabled_count != 0) = false := by
        simpa using h2
      rw [h2f]
      simp

/-- On a consistent theme any run of `perform_load` calls is defined, keeps
consistency and the target load, and leaves `loaded()` at most at the larger of
its first value and the target load. -/
theorem perform_loads_consistent (os : List Outcome) :
    ∀ t : Theme, t.consistent →
      ∃ t1, perform_loads t os = some t1 ∧ t1.consistent ∧
        t1._target_load = t._target_load ∧ t1.loaded ≤ max t.loaded t._target_load := by
  induction os with
  | nil => intro t hc; exact ⟨t, rfl, hc, rfl, le_max_left _ _⟩
  | cons o os ih =>
    intro t hc
    obtain ⟨t1, hr1, hc1, hT1, hn1⟩ := perform_load_consistent o hc
    obtain ⟨t2, hr2, hc2, hT2, hn2⟩ := ih t1 hc1
    refine ⟨t2, by simp [perform_loads, hr1, hr2], hc2, by rw [hT2, hT1], ?_⟩
    rw [hT1] at hn2
    omega

/-- `perform_all_loads` keeps consistency. -/
theorem perform_all_loads_consistent (os : List Outcome) :
    ∀ t t1 : Theme, t.consistent → perform_all_loads t os = some t1 → t1.consistent := by
  induction os with
  | nil =>
    intro t t1 hc h
    unfold perform_all_loads at h
    split at h
    · cases h; exact hc
    · cases h
  | cons o os ih =>
    intro t t1 hc h
    unfold perform_all_loads at h
    split at h
    · cases h; exact hc
    · obtain ⟨t2, hr2, hc2, -, -⟩ := perform_load_consistent o hc
      rw [hr2] at h
      exact ih t2 t1 hc2 h

/-- A freshly constructed theme is consistent. -/
theorem ofProto_consistent (image_path animation_path : List String) :
    (ofProto image_path animation_path).consistent := by
  rw [consistent_iff]
  refine ⟨by simp [keys, ofProto], fun i => ?_⟩
  simp only [keys, ofProto, PathCollection.ofPaths, List.map_nil, List.not_mem_nil, false_iff]
  intro h
  obtain ⟨hlt, hget⟩ := List.getElem?_eq_some.1 h
  simp at hget

/-- Every reachable theme state is consistent. -/
theorem reachable_consistent {t : Theme} (h : t.Reachable) : t.consistent := by
  induction h with
  | fresh ip ap => exact ofProto_consistent ip ap
  | set_target v _ ih => exact ih
  | @load t t1 o _ hr ih =>
    obtain ⟨t2, hr2, hc2, -, -⟩ := perform_load_consistent o ih
    rw [hr] at hr2; cases hr2; exact hc2
  | @swap t t1 o _ hr ih =>
    obtain ⟨t2, hr2, hc2, -, -⟩ := perform_swap_consistent o ih
    rw [hr] at hr2; cases hr2; exact hc2
  | all_loads _ hr ih => exact perform_all_loads_consistent _ _ _ ih hr

/-- On a consistent theme the stills and the enabled paths add up to the image
paths. -/
theorem consistent_count {t : Theme} (hc : t.consistent) :
    t.loaded + t._image_paths.enabled_count = t._image_paths.size := by
  have h1 : t._images.length = (t._image_paths.candidates false).length := by
    have := hc.length_eq
    simpa [keys] using this
  rw [PathCollection.candidates_length] at h1
  have h2 := PathCollection.count_true_add_false t._image_paths.enabled
  simp only [loaded, PathCollection.enabled_count, PathCollection.size]
  omega

/-- On a consistent theme with a still in the cache, `get_image` picks a
disabled index, finds its entry in the cache and returns the image of that
entry. -/
theorem get_image_consistent {t : Theme} (frame pick : Nat) (hc : t.consistent)
    (hne : t._images ≠ []) :
    ∃ index e, t._image_paths.next_index false pick = some index ∧
      t._images.find? (fun e => e.1 == index) = some e ∧ e ∈ t._images ∧
      get_image t frame pick = some e.2 := by
  obtain ⟨-, hm⟩ := (consistent_iff t).1 hc
  obtain ⟨e0, es, hes⟩ := List.exists_cons_of_ne_nil hne
  have hi : t._image_paths.enabled[e0.1]? = some false :=
    (hm e0.1).1 (by simp [keys, hes])
  obtain ⟨j, hj⟩ := PathCollection.next_index_defined pick hi
  have hjk : j ∈ t.keys := (hm j).2 (PathCollection.next_index_some hj)
  simp only [keys, List.mem_map] at hjk
  obtain ⟨e1, he1, hk1⟩ := hjk
  have hsome : (t._images.find? (fun e => e.1 == j)).isSome = true := by
    rw [List.find?_isSome]
    exact ⟨e1, he1, by simp [hk1]⟩
  obtain ⟨e, he⟩ := Option.isSome_iff_exists.1 hsome
  have hemp : t._images.isEmpty = false := by
    rw [hes]; rfl
  exact ⟨j, e, hj, he, List.mem_of_find?_eq_some he, by simp [get_image, hemp, hj, he]⟩

/-! ## Claims on a single theme -/

/-- C11 as stated fails: `trio_theme` reaches `trio_loaded` by three loads;
with the target then lowered to 0 the state has `enabled_count() = 0`, which is
at least the target, and one `perform_load()` leaves `loaded() = 2`, more
than `target_load + 1 = 1`. -/
theorem perform_load_drains_slowly :
    perform_loads trio_theme [good_outcome, good_outcome, good_outcome] = some trio_loaded ∧
    (trio_loaded.set_target_load 0)._target_load ≤
      (trio_loaded.set_target_load 0)._image_paths.enabled_count ∧
    (perform_loads (trio_loaded.set_target_load 0) [good_outcome]).map loaded = some 2 ∧
    ¬ (2 ≤ (trio_loaded.set_target_load 0)._target_load + 1) := by
  decide

/-- C11 as amended: on every reachable theme state, for every decode outcome
and every number of `perform_load()` calls with the target load held fixed,
the calls are defined and `loaded()` after the last call is at most the larger
of `loaded()` before the first call and `target_load`; in particular it is at
most `target_load + 1` when it was so before the first call. -/
theorem perform_loads_bound (t : Theme) (os : List Outcome) (h : t.Reachable) :
    ∃ t1, perform_loads t os = some t1 ∧ t1._target_load = t._target_load ∧
      t1.loaded ≤ max t.loaded t._target_load ∧
      (t.loaded ≤ t._target_load + 1 → t1.loaded ≤ t._target_load + 1) := by
  obtain ⟨t1, hr, -, hT, hn⟩ := perform_loads_consistent os t (reachable_consistent h)
  exact ⟨t1, hr, hT, hn, fun h0 => by omega⟩

/-- Witness of `perform_loads_bound` on the fresh `trio_theme`. -/
theorem perform_loads_bound_witness :
    ∃ t1, perform_loads trio_theme [good_outcome, failed_outcome] = some t1 ∧
      t1._target_load = trio_theme._target_load ∧
      t1.loaded ≤ max trio_theme.loaded trio_theme._target_load ∧
      (trio_theme.loaded ≤ trio_theme._target_load + 1 →
        t1.loaded ≤ trio_theme._target_load + 1) :=
  perform_loads_bound trio_theme [good_outcome, failed_outcome]
    (Reachable.set_target 3 (Reachable.fresh ["a.png", "b.png", "c.png"] []))

/-- C15: on a theme with at least one enabled image path, when `load_image`
returns an empty image, `load_image_internal` is defined and leaves the stills
cache and every enabled flag unchanged, so `loaded()` is unchanged; the same
holds for the `perform_load()` that runs it. -/
theorem load_failure_keeps_cache (t : Theme) (pick : Nat) (image : Image)
    (he : t._image_paths.enabled_count ≠ 0) (hv : image.valid = false) :
    (∃ t1, load_image_internal t pick image = some t1 ∧ t1._images = t._images ∧
      t1._image_paths = t._image_paths ∧ t1.loaded = t.loaded) ∧
    (∀ o : Outcome, o.image = image → t.loaded < t._target_load →
      ∃ t2, perform_load t o = some t2 ∧ t2._images = t._images ∧
        t2._image_paths = t._image_paths ∧ t2.loaded = t.loaded) := by
  refine ⟨⟨_, load_image_internal_empty pick he hv, rfl, rfl, rfl⟩, ?_⟩
  intro o ho hlt
  obtain ⟨h1, h2, h3, -⟩ := perform_load_animation_stills t o
  have he0 : (perform_load_animation t o)._image_paths.enabled_count ≠ 0 := by
    rw [h2]; exact he
  have hv0 : o.image.valid = false := by rw [ho]; exact hv
  have hrun := load_image_internal_empty (t := perform_load_animation t o) o.load_pick he0 hv0
  simp only [loaded] at hlt
  refine ⟨{ perform_load_animation t o with
      trace := (perform_load_animation t o).trace ++ [Work.load_image] }, ?_, h1, h2,
    by simp only [loaded]; rw [h1]⟩
  unfold perform_load
  simp only [h1, h2, h3, hlt, decide_True, hrun]
  simp [he]

/-- Witness of `load_failure_keeps_cache` on `quad_loaded`, which has one
enabled path left. -/
theorem load_failure_keeps_cache_witness :
    (∃ t1, load_image_internal quad_loaded 0 Image.empty = some t1 ∧
      t1._images = quad_loaded._images ∧
      t1._image_paths = quad_loaded._image_paths ∧ t1.loaded = quad_loaded.loaded) ∧
    (∀ o : Outcome, o.image = Image.empty → quad_loaded.loaded < quad_loaded._target_load →
      ∃ t2, perform_load quad_loaded o = some t2 ∧ t2._images = quad_loaded._images ∧
        t2._image_paths = quad_loaded._image_paths ∧ t2.loaded = quad_loaded.loaded) :=
  load_failure_keeps_cache quad_loaded 0 Image.empty (by decide) (by decide)

/-- C16: on every reachable theme state, `get_image()` returns the image of an
entry of the stills cache whenever the cache is non-empty, and the empty image
when both the stills cache and the animation sequence are empty;
`get_animation(frame)` returns the empty image for every frame when the
animation sequence is empty. -/
theorem get_image_priority (t : Theme) (frame pick : Nat) (h : t.Reachable) :
    (t._images ≠ [] → ∃ e ∈ t._images, get_image t frame pick = some e.2) ∧
    (t._images = [] → t._animation_images = [] →
      get_image t frame pick = some Image.empty) ∧
    (t._animation_images = [] → get_animation t frame = some Image.empty) := by
  refine ⟨fun hne => ?_, fun h1 h2 => ?_, fun h2 => ?_⟩
  · obtain ⟨-, e, -, -, hmem, hget⟩ :=
      get_image_consistent frame pick (reachable_consistent h) hne
    exact ⟨e, hmem, hget⟩
  · simp [get_image, get_animation, h1, h2]
  · simp [get_animation, h2]

/-- Witness of `get_image_priority` on `trio_loaded`, reached from the fresh
`trio_theme` by `perform_all_loads`. -/
theorem get_image_priority_witness :
    (trio_loaded._images ≠ [] → ∃ e ∈ trio_loaded._images,
      get_image trio_loaded 5 1 = some e.2) ∧
    (trio_loaded._images = [] → trio_loaded._animation_images = [] →
      get_image trio_loaded 5 1 = some Image.empty) ∧
    (trio_loaded._animation_images = [] → get_animation trio_loaded 5 = some Image.empty) :=
  get_image_priority trio_loaded 5 1
    (@Reachable.all_loads trio_theme trio_loaded [good_outcome, good_outcome, good_outcome]
      (Reachable.set_target 3 (Reachable.fresh ["a.png", "b.png", "c.png"] []))
      (by decide))

/-- C17 as stated fails: `quad_theme` reaches `quad_loaded`, which holds three
stills and has one enabled path, by three loads; a `perform_swap()` whose
decode fails evicts one still and inserts none, leaving `loaded() = 2`. -/
theorem perform_swap_loses_still :
    perform_loads quad_theme [good_outcome, good_outcome, good_outcome] = some quad_loaded ∧
    quad_loaded.loaded = 3 ∧
    (perform_swap quad_loaded failed_outcome).map loaded = some 2 := by
  decide

/-- C17 as amended: on every reachable theme state and for every outcome,
`perform_swap()` is defined and leaves the stills count unchanged, except when
it attempts the still swap (no animation reload, more than two stills cached,
an enabled path left) and `load_image` returns an empty image: then the
evicted still is not replaced and `loaded()` drops by exactly one. -/
theorem perform_swap_count (t : Theme) (o : Outcome) (h : t.Reachable) :
    ∃ t1, perform_swap t o = some t1 ∧
      (o.image.valid = true → t1.loaded = t.loaded) ∧
      (¬ (t._animation_paths.size > 2 ∧ o.chance = true) → t._images.length > 2 →
        t._image_paths.enabled_count ≠ 0 → o.image.valid = false →
        t1.loaded + 1 = t.loaded) ∧
      ((t._animation_paths.size > 2 ∧ o.chance = true) ∨ t._images.length ≤ 2 ∨
        t._image_paths.enabled_count = 0 → t1.loaded = t.loaded) := by
  obtain ⟨t1, hr, -, -, hn⟩ := perform_swap_consistent o (reachable_consistent h)
  refine ⟨t1, hr, fun hv => ?_, fun h1 h2 h3 hv => ?_, fun h1 => ?_⟩
  · simp only [hv, Bool.not_true, Bool.and_false, Bool.false_eq_true, if_false,
      Nat.add_zero] at hn
    exact hn
  · have hc : (!(decide (t._animation_paths.size > 2) && o.chance) &&
        (decide (t._images.length > 2) && t._image_paths.enabled_count != 0) &&
        !o.image.valid) = true := by
      simp only [Bool.and_eq_true, Bool.not_eq_true', Bool.and_eq_false_imp,
        decide_eq_true_eq, bne_iff_ne, ne_eq]
      exact ⟨⟨fun hs => by
        cases hch : o.chance
        · rfl
        · exact absurd ⟨hs, hch⟩ h1, h2, h3⟩, hv⟩
    rw [if_pos hc] at hn
    exact hn
  · have hc : (!(decide (t._animation_paths.size > 2) && o.chance) &&
        (decide (t._images.length > 2) && t._image_paths.enabled_count != 0) &&
        !o.image.valid) = false := by
      rcases h1 with ⟨hs, hch⟩ | hl | he
      · simp [hs, hch]
      · have : ¬ t._images.length > 2 := by omega
        simp [this]
      · simp [he]
    rw [hc] at hn
    simpa using hn

/-- Witness of `perform_swap_count` on `quad_loaded`, reached from the fresh
`quad_theme` by `perform_all_loads`. -/
theorem perform_swap_count_witness :
    ∃ t1, perform_swap quad_loaded failed_outcome = some t1 ∧
      (failed_outcome.image.valid = true → t1.loaded = quad_loaded.loaded) ∧
      (¬ (quad_loaded._animation_paths.size > 2 ∧ failed_outcome.chance = true) →
        quad_loaded._images.length > 2 →
        quad_loaded._image_paths.enabled_count ≠ 0 → failed_outcome.image.valid = false →
        t1.loaded + 1 = quad_loaded.loaded) ∧
      ((quad_loaded._animation_paths.size > 2 ∧ failed_outcome.chance = true) ∨
        quad_loaded._images.length ≤ 2 ∨
        quad_loaded._image_paths.enabled_count = 0 → t1.loaded = quad_loaded.loaded) :=
  perform_swap_count quad_loaded failed_outcome
    (@Reachable.all_loads quad_theme quad_loaded [good_outcome, good_outcome, good_outcome]
      (Reachable.set_target 3 (Reachable.fresh ["a.png", "b.png", "c.png", "d.png"] []))
      (by decide))

/-- C18: in every theme state reachable from a freshly constructed theme by
`set_target_load`, `perform_load`, `perform_swap` and `perform_all_loads`
calls, for every decode outcome, the keys of the stills cache are exactly the
disabled image-path indices, each once, and `loaded() + enabled_count()` is
the number of image paths. -/
theorem reachable_cache_flags (t : Theme) (h : t.Reachable) :
    t.consistent ∧ t.keys.Nodup ∧
    (∀ i : Nat, i ∈ t.keys ↔ t._image_paths.enabled[i]? = some false) ∧
    t.loaded + t._image_paths.enabled_count = t._image_paths.size := by
  have hc := reachable_consistent h
  obtain ⟨hn, hm⟩ := (consistent_iff t).1 hc
  exact ⟨hc, hn, hm, consistent_count hc⟩

/-- Witness of `reachable_cache_flags` on the state reached from `quad_loaded`
by a swap whose decode fails. -/
theorem reachable_cache_flags_witness :
    ∃ t1, perform_swap quad_loaded failed_outcome = some t1 ∧
      t1.consistent ∧ t1.keys.Nodup ∧
      (∀ i : Nat, i ∈ t1.keys ↔ t1._image_paths.enabled[i]? = some false) ∧
      t1.loaded + t1._image_paths.enabled_count = t1._image_paths.size :=
  ⟨{ quad_loaded with
      _image_paths := ⟨[true, false, false, true]⟩
      _images := [(1, Image.data 7), (2, Image.data 7)]
      trace := quad_loaded.trace ++ [Work.unload_image, Work.load_image] },
    by decide,
    reachable_cache_flags _
      (@Reachable.swap quad_loaded _ failed_outcome
        (@Reachable.all_loads quad_theme quad_loaded [good_outcome, good_outcome, good_outcome]
          (Reachable.set_target 3 (Reachable.fresh ["a.png", "b.png", "c.png", "d.png"] []))
          (by decide))
        (by decide))⟩

/-- C19: on a theme whose stills-cache keys are exactly its disabled image
indices, `next_index` is only called with a candidate at hand: a non-empty
cache comes with a disabled index, so `next_index(false)` is defined in
`get_image()` and the lookup finds the entry of the returned index, and
`perform_load()` and `perform_swap()`, whose only undefined step is a
`next_index` call without candidate, are defined for every outcome. -/
theorem next_index_precondition (t : Theme) (hc : t.consistent) :
    (t._images ≠ [] → ∃ i : Nat, t._image_paths.enabled[i]? = some false) ∧
    (∀ frame pick : Nat, t._images ≠ [] →
      ∃ index e, t._image_paths.next_index false pick = some index ∧
        t._images.find? (fun e => e.1 == index) = some e ∧
        get_image t frame pick = some e.2) ∧
    (∀ o : Outcome, ∃ t1, perform_load t o = some t1) ∧
    (∀ o : Outcome, ∃ t1, perform_swap t o = some t1) := by
  refine ⟨fun hne => ?_, fun frame pick hne => ?_, fun o => ?_, fun o => ?_⟩
  · obtain ⟨index, -, hidx, -, -, -⟩ := get_image_consistent 0 0 hc hne
    exact ⟨index, PathCollection.next_index_some hidx⟩
  · obtain ⟨index, e, hidx, hfind, -, hget⟩ := get_image_consistent frame pick hc hne
    exact ⟨index, e, hidx, hfind, hget⟩
  · obtain ⟨t1, hr, -⟩ := perform_load_consistent o hc
    exact ⟨t1, hr⟩
  · obtain ⟨t1, hr, -⟩ := perform_swap_consistent o hc
    exact ⟨t1, hr⟩

/-- Witness of `next_index_precondition` on `quad_loaded`. -/
theorem next_index_precondition_witness :
    (quad_loaded._images ≠ [] →
      ∃ i : Nat, quad_loaded._image_paths.enabled[i]? = some false) ∧
    (∀ frame pick : Nat, quad_loaded._images ≠ [] →
      ∃ index e, quad_loaded._image_paths.next_index false pick = some index ∧
        quad_loaded._images.find? (fun e => e.1 == index) = some e ∧
        get_image quad_loaded frame pick = some e.2) ∧
    (∀ o : Outcome, ∃ t1, perform_load quad_loaded o = some t1) ∧
    (∀ o : Outcome, ∃ t1, perform_swap quad_loaded o = some t1) :=
  next_index_precondition quad_loaded (by decide)

end Theme

/-! ## Termination of the bootstrap -/

namespace Theme

/-- One `perform_load()` with successful decodes on a consistent theme: the
call is defined, settles the animation and takes one unit off the backlog. -/
theorem perform_load_backlog {t : Theme} {o : Outcome} (hc : t.consistent)
    (hd : o.decodes = true) :
    ∃ t1, perform_load t o = some t1 ∧ t1.consistent ∧
      t1._target_load = t._target_load ∧ t1.animation_settled = true ∧
      t1.backlog = t.backlog - 1 ∧ t1.loaded ≤ max t.loaded t._target_load := by
  simp only [Outcome.decodes, Bool.and_eq_true, Bool.not_eq_true'] at hd
  obtain ⟨hv, hf⟩ := hd
  obtain ⟨h1, h2, h3, h4⟩ := perform_load_animation_stills t o
  have hs := perform_load_animation_settles t o hf
  have hc0 : (perform_load_animation t o).consistent := by
    unfold consistent keys at hc ⊢
    rw [h1, h2]; exact hc
  unfold perform_load
  simp only [h1, h2, h3, loaded, backlog]
  by_cases hlt : t._images.length < t._target_load ∧ t._image_paths.enabled_count ≠ 0
  · obtain ⟨t1, hr, hc1, hn1, he1, hT1, ha1, hp1⟩ :=
      load_image_internal_ok o.load_pick hc0 (by rw [h2]; exact hlt.2) hv
    rw [h1] at hn1
    rw [h2] at he1
    rw [h3] at hT1
    refine ⟨t1, by simp [hlt.1, hlt.2, hr], hc1, hT1, ?_, ?_, by omega⟩
    · unfold animation_settled at hs ⊢
      rw [ha1, hp1, hT1, ← h3]; exact hs
    · rw [hT1, hn1]
      split_ifs <;> omega
  · have hlt2 : ¬ ((decide (t._images.length < t._target_load) &&
        t._image_paths.enabled_count != 0) = true) := by
      simpa using hlt
    rw [if_neg hlt2]
    by_cases hgt : t._images.length > t._target_load
    · have hne : (perform_load_animation t o)._images ≠ [] := by
        rw [h1]; intro h; rw [h] at hgt; simp at hgt
      obtain ⟨t1, hr, hc1, hn1, he1, hT1, ha1, hp1⟩ :=
        unload_image_internal_ok o.unload_pick hc0 hne
      rw [h1] at hn1
      rw [h2] at he1
      rw [h3] at hT1
      refine ⟨t1, by simp [hgt, hr], hc1, hT1, ?_, ?_, by omega⟩
      · unfold animation_settled at hs ⊢
        rw [ha1, hp1, hT1, ← h3]; exact hs
      · rw [hT1]
        split_ifs <;> omega
    · refine ⟨perform_load_animation t o, by simp [hgt], hc0, h3, hs, ?_, by rw [h1]; omega⟩
      rw [h1, h2, h3]
      split_ifs <;> omega

/-- A settled theme without backlog is `all_loaded()`. -/
theorem all_loaded_of_backlog {t : Theme} (hs : t.animation_settled = true)
    (hb : t.backlog = 0) : t.all_loaded = true := by
  unfold animation_settled at hs
  unfold all_loaded
  simp only [backlog, loaded] at hb
  rw [Bool.and_eq_true]
  refine ⟨?_, hs⟩
  simp only [Bool.or_eq_true, beq_iff_eq]
  split_ifs at hb <;> omega

/-- With successful decodes `perform_all_loads` returns on every consistent
theme once the outcomes at hand cover the backlog and the animation: the
result is `all_loaded()`, consistent, has the same target load and holds at
most the larger of the stills held before and the target load. -/
theorem perform_all_loads_total (d : Nat) :
    ∀ (t : Theme) (os : List Outcome), t.consistent →
      t.backlog + (if t.animation_settled then 0 else 1) ≤ d →
      (∀ o ∈ os, o.decodes = true) → d ≤ os.length →
      ∃ t1, perform_all_loads t os = some t1 ∧ t1.all_loaded = true ∧ t1.consistent ∧
        t1._target_load = t._target_load ∧ t1.loaded ≤ max t.loaded t._target_load := by
  induction d with
  | zero =>
    intro t os hc hd _ _
    have hs : t.animation_settled = true := by
      cases h : t.animation_settled
      · simp [h] at hd
      · rfl
    have hall := all_loaded_of_backlog hs (by omega)
    exact ⟨t, perform_all_loads_done os hall, hall, hc, rfl, le_max_left _ _⟩
  | succ d ih =>
    intro t os hc hd hos hlen
    by_cases hall : t.all_loaded = true
    · exact ⟨t, perform_all_loads_done os hall, hall, hc, rfl, le_max_left _ _⟩
    · cases os with
      | nil => simp at hlen
      | cons o os1 =>
        obtain ⟨t1, hr, hc1, hT1, hs1, hb1, hn1⟩ :=
          perform_load_backlog hc (hos o (List.mem_cons_self _ _))
        have hd1 : t1.backlog + (if t1.animation_settled then 0 else 1) ≤ d := by
          rw [hs1, hb1]
          simp only [if_true, Nat.add_zero]
          omega
        obtain ⟨t2, hloop, hall2, hc2, hT2, hn2⟩ := ih t1 os1 hc1 hd1
          (fun x hx => hos x (List.mem_cons_of_mem _ hx))
          (by simp only [List.length_cons] at hlen; omega)
        refine ⟨t2, by simp [perform_all_loads, hall, hr, hloop], hall2, hc2,
          by rw [hT2, hT1], ?_⟩
        rw [hT1] at hn2
        omega

/-- The themes the constructor starts from are consistent and hold no still. -/
theorem initial_themes_fresh (themes : List ThemeProto) :
    ∀ t ∈ ThemeBank.initial_themes themes, t.consistent ∧ t.loaded = 0 := by
  have hfresh : ∀ ip ap : List String, (ofProto ip ap).consistent ∧ (ofProto ip ap).loaded = 0 :=
    fun ip ap => ⟨ofProto_consistent ip ap, rfl⟩
  match themes with
  | [] =>
    intro t ht
    simp [ThemeBank.initial_themes, Theme.copy] at ht
    rcases ht with rfl | rfl <;> exact hfresh [] []
  | [p] =>
    intro t ht
    simp [ThemeBank.initial_themes, Theme.copy] at ht
    rcases ht with rfl | rfl <;> exact hfresh p.image_path p.animation_path
  | p :: q :: rest =>
    intro t ht
    simp [ThemeBank.initial_themes] at ht
    rcases ht with rfl | rfl | ⟨x, -, rfl⟩ <;> exact hfresh _ _

end Theme

namespace ThemeBank

/-- An operation that is defined on, and keeps, a property shared by all
themes is defined at every valid index and keeps the property and the number of
themes. -/
theorem with_theme_defined {G : Theme → Prop} {ts : List Theme} {i : Nat}
    {f : Theme → Option Theme} (hG : ∀ t ∈ ts, G t) (hi : i < ts.length)
    (hf : ∀ t, G t → ∃ t1, f t = some t1 ∧ G t1) :
    ∃ ts1, with_theme ts i f = some ts1 ∧ (∀ t ∈ ts1, G t) ∧ ts1.length = ts.length := by
  obtain ⟨t1, hr, hG1⟩ := hf ts[i] (hG _ (List.getElem_mem hi))
  refine ⟨ts.set i t1, by simp [with_theme, List.getElem?_eq_getElem hi, hr], ?_, by simp⟩
  intro t ht
  rcases List.mem_or_eq_of_mem_set ht with h | h
  · exact hG t h
  · rw [h]; exact hG1

/-- The constructor returns whenever every decode succeeds, each bootstrap
load has `image_cache_size / 2 + 1` outcomes at hand and, for three or more
supplied themes, the random collaborators obey their contracts and the
rejection loop for `_next` draws an accepted value. -/
theorem construct_returns (c : Nat) (themes : List ThemeProto) (cache : Nat) (o : Boot)
    (hs : o.sufficient (cache / 2))
    (hv : 3 ≤ themes.length → o.valid themes.length ∧ ∃ d ∈ o.next, d ≠ o.b) :
    ∃ bank, construct c themes cache o = some bank := by
  obtain ⟨hdec, hl0, hl1, hl2⟩ := hs
  have hG0 : ∀ t ∈ initial_themes themes,
      t.consistent ∧ t.loaded ≤ cache / 2 ∧ t._target_load ≤ cache / 2 := by
    intro t ht
    obtain ⟨h1, h2⟩ := Theme.initial_themes_fresh themes t ht
    have h3 := (initial_themes_spec themes).2 t ht
    exact ⟨h1, by omega, by omega⟩
  have hset : ∀ q : Nat, q ≤ cache / 2 → ∀ t : Theme,
      (t.consistent ∧ t.loaded ≤ cache / 2 ∧ t._target_load ≤ cache / 2) →
      ∃ t1, (fun t => some (t.set_target_load q)) t = some t1 ∧
        (t1.consistent ∧ t1.loaded ≤ cache / 2 ∧ t1._target_load ≤ cache / 2) :=
    fun q hq t ⟨h1, h2, _⟩ => ⟨_, rfl, h1, h2, hq⟩
  have hload : ∀ os : List Outcome, (∀ x ∈ os, x.decodes = true) → cache / 2 + 1 ≤ os.length →
      ∀ t : Theme, (t.consistent ∧ t.loaded ≤ cache / 2 ∧ t._target_load ≤ cache / 2) →
      ∃ t1, (fun t => Theme.perform_all_loads t os) t = some t1 ∧
        (t1.consistent ∧ t1.loaded ≤ cache / 2 ∧ t1._target_load ≤ cache / 2) := by
    intro os hos hlen t ⟨h1, h2, h3⟩
    have hb : t.backlog + (if t.animation_settled then 0 else 1) ≤ cache / 2 + 1 := by
      have : t.backlog ≤ cache / 2 := by
        unfold Theme.backlog
        split_ifs <;> omega
      split_ifs <;> omega
    obtain ⟨t1, hr, -, hc1, hT1, hn1⟩ :=
      Theme.perform_all_loads_total (cache / 2 + 1) t os h1 hb hos hlen
    exact ⟨t1, hr, hc1, by omega, by omega⟩
  have hd0 : ∀ x ∈ o.loads0, x.decodes = true := fun x hx => hdec x (by simp [hx])
  have hd1 : ∀ x ∈ o.loads1, x.decodes = true := fun x hx => hdec x (by simp [hx])
  have hd2 : ∀ x ∈ o.loads2, x.decodes = true := fun x hx => hdec x (by simp [hx])
  obtain ⟨hl, -⟩ := initial_themes_spec themes
  unfold construct
  generalize initial_themes themes = ts at hG0 hl ⊢
  simp only
  by_cases h2 : ts.length = 2
  · rw [if_pos h2]
    obtain ⟨ts1, e1, g1, n1⟩ := with_theme_defined hG0 (by omega) (hset (cache / 2) (le_refl _))
      (i := 0)
    obtain ⟨ts2, e2, g2, n2⟩ := with_theme_defined g1 (by omega) (hset (cache / 2) (le_refl _))
      (i := 1)
    obtain ⟨ts3, e3, g3, n3⟩ := with_theme_defined g2 (by omega) (hload o.loads0 hd0 hl0)
      (i := 0)
    obtain ⟨ts4, e4, g4, n4⟩ := with_theme_defined g3 (by omega) (hload o.loads1 hd1 hl1)
      (i := 1)
    simp only [e1, e2, e3, e4, Option.some_bind]
    exact ⟨_, rfl⟩
  · rw [if_neg h2]
    have h3 : 3 ≤ themes.length := by
      split at hl <;> omega
    have hn : ts.length = themes.length := by
      split at hl <;> omega
    obtain ⟨⟨hoa, ⟨hob, -⟩, hon⟩, d, hd, hdb⟩ := hv h3
    obtain ⟨nx, hnx⟩ : ∃ x, do_while (fun r => r == o.b) o.next = some x :=
      do_while_exits ⟨d, hd, by simpa using hdb⟩
    obtain ⟨hnlt, -⟩ := hon nx (do_while_some hnx).1
    have hq : cache / 3 ≤ cache / 2 := by omega
    obtain ⟨ts1, e1, g1, n1⟩ := with_theme_defined hG0 (by omega) (hset (cache / 3) hq)
      (i := o.a)
    obtain ⟨ts2, e2, g2, n2⟩ := with_theme_defined g1 (by omega) (hset (cache / 3) hq)
      (i := o.b)
    obtain ⟨ts3, e3, g3, n3⟩ := with_theme_defined g2 (by omega) (hset (cache / 3) hq)
      (i := nx)
    obtain ⟨ts4, e4, g4, n4⟩ := with_theme_defined g3 (by omega) (hload o.loads0 hd0 hl0)
      (i := o.a)
    obtain ⟨ts5, e5, g5, n5⟩ := with_theme_defined g4 (by omega) (hload o.loads1 hd1 hl1)
      (i := o.b)
    simp only [hnx, e1, e2, e3, e4, e5, Option.some_bind]
    by_cases h33 : ts5.length = 3
    · rw [if_pos h33]
      obtain ⟨ts6, e6, -, -⟩ := with_theme_defined g5 (by omega) (hload o.loads2 hd2 hl2)
        (i := nx)
      simp only [e6, Option.some_bind]
      exact ⟨_, rfl⟩
    · rw [if_neg h33]
      exact ⟨_, rfl⟩

end ThemeBank

/-! ## Construction and the two-theme switch -/

namespace ThemeBank

/-- The search for `_prev` stops at the smallest index that is none of the
three slots, after at most three increments. -/
theorem search_prev_spec (a b nx : Nat) :
    search_prev a b nx 4 0 ≠ a ∧ search_prev a b nx 4 0 ≠ b ∧ search_prev a b nx 4 0 ≠ nx ∧
    search_prev a b nx 4 0 ≤ 3 ∧
    ∀ j : Nat, j < search_prev a b nx 4 0 → j = a ∨ j = b ∨ j = nx := by
  simp only [search_prev]
  split_ifs <;> refine ⟨?_, ?_, ?_, ?_, ?_⟩ <;> omega

/-- An operation on one theme keeps the number of themes. -/
theorem with_theme_length {ts ts1 : List Theme} {i : Nat} {f : Theme → Option Theme}
    (h : with_theme ts i f = some ts1) : ts1.length = ts.length := by
  unfold with_theme at h
  split at h
  · cases h
  · simp only [Option.map_eq_some'] at h
    obtain ⟨t1, -, rfl⟩ := h
    simp

/-- C12: with fewer than three themes `change_themes()` returns true,
exchanges `_a` and `_b` and leaves every theme as it is; `get(true)` after the
call is the theme `get(false)` gave before it, and a second call restores the
original `_a` and `_b`. -/
theorem change_themes_swap (c : Nat) (bank : ThemeBank) (draws draws2 : List Nat)
    (h : bank._themes.length < 3) :
    ∃ bank1 bank2, change_themes c bank draws = some (bank1, true) ∧
      bank1._a = bank._b ∧ bank1._b = bank._a ∧ bank1._themes = bank._themes ∧
      bank1.get true = bank.get false ∧ bank1.get false = bank.get true ∧
      change_themes c bank1 draws2 = some (bank2, true) ∧
      bank2._a = bank._a ∧ bank2._b = bank._b ∧ bank2._themes = bank._themes := by
  refine ⟨{ bank with _cooldown := c, _a := bank._b, _b := bank._a },
    { bank with _cooldown := c }, ?_, rfl, rfl, rfl, ?_, ?_, ?_, rfl, rfl, rfl⟩
  · simp [change_themes, h]
  · simp [get]
  · simp [get]
  · simp [change_themes, h]

/-- Witness of `change_themes_swap` on `bank_of_two`. -/
theorem change_themes_swap_witness :
    ∃ bank1 bank2, change_themes 5 bank_of_two [] = some (bank1, true) ∧
      bank1._a = bank_of_two._b ∧ bank1._b = bank_of_two._a ∧
      bank1._themes = bank_of_two._themes ∧
      bank1.get true = bank_of_two.get false ∧ bank1.get false = bank_of_two.get true ∧
      change_themes 5 bank1 [] = some (bank2, true) ∧
      bank2._a = bank_of_two._a ∧ bank2._b = bank_of_two._b ∧
      bank2._themes = bank_of_two._themes :=
  change_themes_swap 5 bank_of_two [] [] (by decide)

/-- A returning constructor over at most two supplied themes: two themes,
slots 0 and 1, half the budget each. -/
theorem construct_small_detail {c : Nat} {themes : List ThemeProto} {cache : Nat} {o : Boot}
    {bank : ThemeBank} (hs : themes.length ≤ 2)
    (h : construct c themes cache o = some bank) :
    bank._themes.length = 2 ∧ bank._a = 0 ∧ bank._b = 1 ∧ bank._image_cache_size = cache ∧
      bank.targets = [cache / 2, cache / 2] := by
  unfold construct at h
  obtain ⟨hl, -⟩ := initial_themes_spec themes
  generalize initial_themes themes = ts at h hl
  simp only at h
  have h2 : ts.length = 2 := by
    split at hl <;> omega
  rw [if_pos h2] at h
  simp only [Option.bind_eq_some] at h
  obtain ⟨ts1, e1, ts2, e2, ts3, e3, ts4, e4, h⟩ := h
  cases h
  obtain ⟨-, r1⟩ := with_theme_set_target e1
  obtain ⟨-, r2⟩ := with_theme_set_target e2
  have r3 := with_theme_targets (fun t t1 => Theme.perform_all_loads_target _ t t1) e3
  have r4 := with_theme_targets (fun t t1 => Theme.perform_all_loads_target _ t t1) e4
  refine ⟨?_, rfl, rfl, rfl, ?_⟩
  · simp only
    rw [with_theme_length e4, with_theme_length e3, with_theme_length e2, with_theme_length e1]
    exact h2
  · simp only [targets]
    rw [r4, r3, r2, r1]
    match ts, h2 with
    | [x, y], _ => rfl

/-- A returning constructor over three or more supplied themes, the random
collaborators obeying their contracts: the slots are the draws, `_next` being
the accepted draw of the rejection loop, the themes are as many as supplied,
the target loads are a third of the budget at the three slots and 0 elsewhere,
and with more than three themes `_prev` is the result of the search. -/
theorem construct_large_detail {c : Nat} {themes : List ThemeProto} {cache : Nat} {o : Boot}
    {bank : ThemeBank} (h3 : 3 ≤ themes.length) (hv : o.valid themes.length)
    (h : construct c themes cache o = some bank) :
    ∃ nx, nx ∈ o.next ∧ nx ≠ o.b ∧ bank._a = o.a ∧ bank._b = o.b ∧ bank._next = nx ∧
      bank._image_cache_size = cache ∧ bank._themes.length = themes.length ∧
      (∀ i : Nat, i < themes.length → bank.targets[i]? =
        some (if i = o.a ∨ i = o.b ∨ i = nx then cache / 3 else 0)) ∧
      (themes.length ≠ 3 → bank._prev = search_prev o.a o.b nx 4 0) := by
  unfold construct at h
  obtain ⟨hl, hz⟩ := initial_themes_spec themes
  generalize initial_themes themes = ts at h hl hz
  simp only at h
  have hz0 : ∀ i : Nat, i < ts.length → (ts.map (fun t => t._target_load))[i]? = some 0 := by
    intro i hi
    rw [List.getElem?_map, List.getElem?_eq_getElem hi]
    simp [hz _ (List.getElem_mem hi)]
  have hn : ts.length = themes.length := by
    split at hl <;> omega
  have h2 : ¬ ts.length = 2 := by omega
  rw [if_neg h2] at h
  obtain ⟨hoa, ⟨hob, -⟩, hon⟩ := hv
  simp only [Option.bind_eq_some] at h
  obtain ⟨nx, hnx, ts1, e1, ts2, e2, ts3, e3, ts4, e4, ts5, e5, h⟩ := h
  obtain ⟨hmem, hrej⟩ := do_while_some hnx
  have hnb : nx ≠ o.b := by simpa using hrej
  obtain ⟨hnlt, -⟩ := hon nx hmem
  obtain ⟨-, r1⟩ := with_theme_set_target e1
  obtain ⟨-, r2⟩ := with_theme_set_target e2
  obtain ⟨-, r3⟩ := with_theme_set_target e3
  have r4 := with_theme_targets (fun t t1 => Theme.perform_all_loads_target _ t t1) e4
  have r5 := with_theme_targets (fun t t1 => Theme.perform_all_loads_target _ t t1) e5
  have hT5 : ts5.map (fun t => t._target_load) =
      (((ts.map (fun t => t._target_load)).set o.a (cache / 3)).set o.b (cache / 3)).set nx
        (cache / 3) := by
    rw [r5, r4, r3, r2, r1]
  have hlen5 : ts5.length = ts.length := by
    rw [with_theme_length e5, with_theme_length e4, with_theme_length e3, with_theme_length e2,
      with_theme_length e1]
  have hpt : ∀ i : Nat, i < themes.length → (ts5.map (fun t => t._target_load))[i]? =
      some (if i = o.a ∨ i = o.b ∨ i = nx then cache / 3 else 0) := by
    intro i hi
    rw [hT5, List.getElem?_set, List.getElem?_set, List.getElem?_set, hz0 i (by omega)]
    have e1 : o.a < ts.length := by omega
    have e2 : o.b < ts.length := by omega
    have e3 : nx < ts.length := by omega
    simp only [List.length_set, List.length_map, e1, e2, e3, if_true]
    by_cases c1 : nx = i
    · simp [c1]
    · by_cases c2 : o.b = i
      · simp [c1, c2]
      · by_cases c3 : o.a = i
        · simp [c1, c2, c3]
        · have d1 : ¬ i = nx := fun e => c1 e.symm
          have d2 : ¬ i = o.b := fun e => c2 e.symm
          have d3 : ¬ i = o.a := fun e => c3 e.symm
          simp [c1, c2, c3, d1, d2, d3]
  split at h
  · next hlen3 =>
    simp only [Option.bind_eq_some] at h
    obtain ⟨ts6, e6, h⟩ := h
    cases h
    have r6 := with_theme_targets (fun t t1 => Theme.perform_all_loads_target _ t t1) e6
    refine ⟨nx, hmem, hnb, rfl, rfl, rfl, rfl, ?_, ?_, ?_⟩
    · simp only
      rw [with_theme_length e6, hlen5, hn]
    · simp only [targets]
      rw [r6]
      exact hpt
    · intro hne
      omega
  · next hlen3 =>
    cases h
    refine ⟨nx, hmem, hnb, rfl, rfl, rfl, rfl, ?_, ?_, fun _ => rfl⟩
    · simp only
      rw [hlen5, hn]
    · simp only [targets]
      exact hpt

/-- C13: the constructor returns whenever every decode succeeds, the outcomes
at hand suffice and the random collaborators obey their contracts; a bank it
returns from 0, 1 or 2 supplied themes holds exactly two themes, with `_a = 0`,
`_b = 1` and `target_load = image_cache_size / 2` for both, and a bank it
returns from `n ≥ 3` supplied themes holds exactly `n` themes. -/
theorem construct_counts (c : Nat) (themes : List ThemeProto) (cache : Nat) (o : Boot) :
    (o.sufficient (cache / 2) →
      (3 ≤ themes.length → o.valid themes.length ∧ ∃ d ∈ o.next, d ≠ o.b) →
      ∃ bank, construct c themes cache o = some bank) ∧
    (∀ bank, construct c themes cache o = some bank →
      (themes.length ≤ 2 → bank._themes.length = 2 ∧ bank._a = 0 ∧ bank._b = 1 ∧
        bank._themes.map (fun t => t._target_load) = [cache / 2, cache / 2]) ∧
      (3 ≤ themes.length → bank._themes.length = themes.length)) := by
  refine ⟨fun hs hv => construct_returns c themes cache o hs hv, fun bank h => ?_⟩
  refine ⟨fun hs => ?_, fun h3 => ?_⟩
  · obtain ⟨h1, h2, h3, -, h5⟩ := construct_small_detail hs h
    exact ⟨h1, h2, h3, h5⟩
  · unfold construct at h
    obtain ⟨hl, -⟩ := initial_themes_spec themes
    generalize initial_themes themes = ts at h hl
    simp only at h
    have hn : ts.length = themes.length := by
      split at hl <;> omega
    have h2 : ¬ ts.length = 2 := by omega
    rw [if_neg h2] at h
    simp only [Option.bind_eq_some] at h
    obtain ⟨nx, hnx, ts1, e1, ts2, e2, ts3, e3, ts4, e4, ts5, e5, h⟩ := h
    have hlen5 : ts5.length = ts.length := by
      rw [with_theme_length e5, with_theme_length e4, with_theme_length e3,
        with_theme_length e2, with_theme_length e1]
    split at h
    · simp only [Option.bind_eq_some] at h
      obtain ⟨ts6, e6, h⟩ := h
      cases h
      simp only
      rw [with_theme_length e6, hlen5, hn]
    · cases h
      simp only
      rw [hlen5, hn]

/-- Witness of `construct_counts`: without any supplied theme, with budget 2
and two successful outcomes per bootstrap load, the constructor returns a bank
of two themes with slots 0 and 1 and target load 1 each. -/
theorem construct_counts_witness :
    ∃ bank, construct 1 [] 2 small_boot = some bank ∧
      bank._themes.length = 2 ∧ bank._a = 0 ∧ bank._b = 1 ∧
      bank._themes.map (fun t => t._target_load) = [2 / 2, 2 / 2] :=
  Exists.elim
    ((construct_counts 1 [] 2 small_boot).1
      ⟨by decide, by decide, by decide, by decide⟩ (fun h => absurd h (by decide)))
    (fun bank h => ⟨bank, h, ((construct_counts 1 [] 2 small_boot).2 bank h).1 (by decide)⟩)

/-- C14: over `n ≥ 4` supplied themes, the random collaborators obeying their
contracts, the constructor returns whenever every decode succeeds, the outcomes
at hand suffice and the rejection loop draws an accepted value; in a bank it
returns the slots `_a`, `_b`, `_next`, `_prev` are pairwise distinct indices
below `n`, `_prev` is the smallest index that is none of `_a`, `_b`, `_next`
and is at most 3, the themes at `_a`, `_b`, `_next` have
`target_load = image_cache_size / 3` and every other theme, `_prev` included,
has `target_load = 0`. -/
theorem construct_slots (c : Nat) (themes : List ThemeProto) (cache : Nat) (o : Boot)
    (h4 : 4 ≤ themes.length) (hv : o.valid themes.length) :
    (o.sufficient (cache / 2) → (∃ d ∈ o.next, d ≠ o.b) →
      ∃ bank, construct c themes cache o = some bank) ∧
    (∀ bank, construct c themes cache o = some bank →
      bank._themes.length = themes.length ∧
      bank._a < themes.length ∧ bank._b < themes.length ∧ bank._next < themes.length ∧
      bank._prev < themes.length ∧
      bank._a ≠ bank._b ∧ bank._a ≠ bank._next ∧ bank._a ≠ bank._prev ∧
      bank._b ≠ bank._next ∧ bank._b ≠ bank._prev ∧ bank._next ≠ bank._prev ∧
      bank._prev ≤ 3 ∧
      (∀ j : Nat, j < bank._prev → j = bank._a ∨ j = bank._b ∨ j = bank._next) ∧
      (∀ i : Nat, i < themes.length →
        (bank._themes.map (fun t => t._target_load))[i]? =
          some (if i = bank._a ∨ i = bank._b ∨ i = bank._next then cache / 3 else 0)) ∧
      (bank._themes.map (fun t => t._target_load))[bank._prev]? = some 0) := by
  refine ⟨fun hs hd => construct_returns c themes cache o hs (fun _ => ⟨hv, hd⟩),
    fun bank h => ?_⟩
  obtain ⟨nx, hmem, hnb, ha, hb, hnx, -, hlen, hpt, hprev⟩ :=
    construct_large_detail (by omega) hv h
  obtain ⟨hoa, ⟨hob, hoab⟩, hon⟩ := hv
  obtain ⟨hnlt, hna⟩ := hon nx hmem
  obtain ⟨p1, p2, p3, p4, p5⟩ := search_prev_spec o.a o.b nx
  have hp := hprev (by omega)
  rw [ha, hb, hnx, hp]
  have hpt2 : ∀ i : Nat, i < themes.length →
      (bank._themes.map (fun t => t._target_load))[i]? =
        some (if i = o.a ∨ i = o.b ∨ i = nx then cache / 3 else 0) := hpt
  refine ⟨hlen, hoa, hob, hnlt, by omega, fun e => hoab e.symm, fun e => hna e.symm,
    fun e => p1 e.symm, fun e => hnb e.symm, fun e => p2 e.symm, fun e => p3 e.symm, p4, p5,
    hpt2, ?_⟩
  rw [hpt2 _ (by omega), if_neg (by omega)]

/-- Witness of `construct_slots` on `leaky_protos`: five themes, budget 3,
draws `a = 0`, `b = 1`, `next = 2`; the constructor returns `leaky_bank`, whose
`_prev` is 3. -/
theorem construct_slots_witness :
    ∃ bank, construct 1 leaky_protos 3 leaky_boot = some bank ∧
      bank._themes.length = leaky_protos.length ∧
      bank._a < leaky_protos.length ∧ bank._b < leaky_protos.length ∧
      bank._next < leaky_protos.length ∧ bank._prev < leaky_protos.length ∧
      bank._a ≠ bank._b ∧ bank._a ≠ bank._next ∧ bank._a ≠ bank._prev ∧
      bank._b ≠ bank._next ∧ bank._b ≠ bank._prev ∧ bank._next ≠ bank._prev ∧
      bank._prev ≤ 3 ∧
      (∀ j : Nat, j < bank._prev → j = bank._a ∨ j = bank._b ∨ j = bank._next) ∧
      (∀ i : Nat, i < leaky_protos.length →
        (bank._themes.map (fun t => t._target_load))[i]? =
          some (if i = bank._a ∨ i = bank._b ∨ i = bank._next then 3 / 3 else 0)) ∧
      (bank._themes.map (fun t => t._target_load))[bank._prev]? = some 0 :=
  ⟨leaky_bank, by decide,
    (construct_slots 1 leaky_protos 3 leaky_boot (by decide)
      ⟨by decide, ⟨by decide, by decide⟩, by decide⟩).2 leaky_bank (by decide)⟩

/-! ## Themes outside the slots -/

/-- C20, evaluation at the failing input: five themes, the first with one
image path and the others without any path, budget 3.  The constructor draws
`a = 0`, `b = 1`, `next = 2` and loads the one still of theme 0.  A first
`change_themes()` makes theme 0 the `prev` theme with target 0; it still holds
its still but has no enabled path left, so `all_loaded()` is true for it and a
second `change_themes()` succeeds at once.  In the reached state theme 0 is none
of `_a`, `_b`, `_next`, `_prev` and `loaded()` is 1 for it. -/
theorem released_theme_keeps_still :
    construct 1 leaky_protos 3 leaky_boot = some leaky_bank ∧
    change_themes 1 leaky_bank [4] = some (leaky_bank1, true) ∧
    (leaky_bank1._themes[leaky_bank1._prev]?).map Theme.all_loaded = some true ∧
    change_themes 1 leaky_bank1 [3] = some (leaked_bank, true) ∧
    Reachable 1 leaked_bank ∧
    4 ≤ leaked_bank._themes.length ∧
    0 ≠ leaked_bank._a ∧ 0 ≠ leaked_bank._b ∧ 0 ≠ leaked_bank._next ∧ 0 ≠ leaked_bank._prev ∧
    (leaked_bank._themes[0]?).map Theme.loaded = some 1 := by
  refine ⟨by decide, by decide, by decide, by decide, ?_, by decide, by decide, by decide,
    by decide, by decide, by decide⟩
  exact @Reachable.switch 1 leaky_bank1 leaked_bank [3] true
    (@Reachable.switch 1 leaky_bank leaky_bank1 [4] true
      (@Reachable.boot 1 leaky_protos 3 leaky_boot leaky_bank
        (fun _ => ⟨by decide, ⟨by decide, by decide⟩, by decide⟩) (by decide))
      (by decide) (by decide))
    (by decide) (by decide)

end ThemeBank

end Trance
